import Mathlib

/-!
# receipt-processor: validation and scoring

A shallow embedding of `validateReceipt` and `calculatePoints` of `main.go`, with the
library routines they call (`regexp`, `time.Parse`, `strconv.ParseFloat`, `unicode`,
`strings.TrimSpace`, float64 arithmetic) modelled next to them.

* A Go string is modelled by a Lean `String`, that is by the sequence of its code points
  (the JSON and BSON decoders only produce valid UTF-8).  The library routines that index
  bytes only ever test for ASCII bytes, and no byte of a multi-byte UTF-8 sequence is
  ASCII, so they are modelled on the code points; `len` is modelled by the UTF-8 byte
  count.
* float64 values are modelled exactly: a finite value is a whole number of units of
  2^-1074, and every operation is the exact operation followed by rounding to nearest,
  ties to even.
* What the language leaves to the implementation is a parameter, `Runtime`: the Unicode
  tables above U+00FF, the result of converting to `int` a float64 that `int` cannot
  hold, and whether `x * y + z` is fused.
* An `int` has 64 bits and its arithmetic wraps around: every addition to a counter and
  the product of rule 4 are followed by `wrap64`.
-/

namespace ReceiptProcessor

/-! ## Data model -/

/-- Item of `main.go`: a single product on a receipt. -/
structure Item where
  ShortDescription : String
  Price : String
deriving DecidableEq, Repr

/-- Receipt of `main.go`: the incoming JSON structure. -/
structure Receipt where
  Retailer : String
  PurchaseDate : String
  PurchaseTime : String
  Items : List Item
  Total : String
deriving DecidableEq, Repr

/-- ReceiptDocument of `main.go`: the stored form of a receipt. -/
structure ReceiptDocument where
  ID : String
  Retailer : String
  PurchaseDate : String
  PurchaseTime : String
  Items : List Item
  Total : String
deriving DecidableEq, Repr

/-! ## Character classes of `regexp` (RE2 syntax: the Perl classes are ASCII-only) -/

/-- The class `\d` of RE2: `[0-9]`. -/
def isDigitByte (c : Char) : Bool := decide (48 ≤ c.toNat) && decide (c.toNat ≤ 57)

/-- The class `\w` of RE2: `[0-9A-Za-z_]`. -/
def isWordChar (c : Char) : Bool :=
  isDigitByte c || (decide (65 ≤ c.toNat) && decide (c.toNat ≤ 90))
    || (decide (97 ≤ c.toNat) && decide (c.toNat ≤ 122)) || decide (c.toNat = 95)

/-- The class `\s` of RE2: `[\t\n\f\r ]`. -/
def isRegexSpace (c : Char) : Bool :=
  decide (c.toNat = 9) || decide (c.toNat = 10) || decide (c.toNat = 12)
    || decide (c.toNat = 13) || decide (c.toNat = 32)

/-- The bracket expression `[\w\s\-&]` of `retailerRegex`. -/
def retailerClass (c : Char) : Bool :=
  isWordChar c || isRegexSpace c || decide (c.toNat = 45) || decide (c.toNat = 38)

/-- The bracket expression `[\w\s\-]` of `itemDescRegex`. -/
def itemDescClass (c : Char) : Bool :=
  isWordChar c || isRegexSpace c || decide (c.toNat = 45)

/-- The pattern `^[cls]+$` matched against a whole text: one or more characters, all in
the class (without flags `$` only matches at the end of the text). -/
def matchClassPlus (cls : Char → Bool) (cs : List Char) : Bool :=
  !cs.isEmpty && cs.all cls

/-- The pattern `\d{2}$`. -/
def matchTwoDigitsEnd : List Char → Bool
  | [a, b] => isDigitByte a && isDigitByte b
  | _ => false

/-- The pattern `\d*\.\d{2}$`: the digits of `\d+` that remain, then the point and the two
fraction digits (`\d` does not match the point, so the split is forced). -/
def matchPriceTail : List Char → Bool
  | [] => false
  | c :: cs =>
    if isDigitByte c then matchPriceTail cs
    else decide (c.toNat = 46) && matchTwoDigitsEnd cs

/-- The pattern `^\d+\.\d{2}$`. -/
def matchPrice : List Char → Bool
  | [] => false
  | c :: cs => isDigitByte c && matchPriceTail cs

/-- `retailerRegex.MatchString`, for the pattern `^[\w\s\-&]+$`. -/
def retailerRegex (s : String) : Bool := matchClassPlus retailerClass s.data

/-- `itemDescRegex.MatchString`, for the pattern `^[\w\s\-]+$`. -/
def itemDescRegex (s : String) : Bool := matchClassPlus itemDescClass s.data

/-- `priceRegex.MatchString`, for the pattern `^\d+\.\d{2}$`. -/
def priceRegex (s : String) : Bool := matchPrice s.data

/-! ## `time.Parse` for the layouts `2006-01-02` and `15:04` -/

/-- The fields of a `time.Time` that the program reads (every value here is in UTC). -/
structure Time where
  year : Nat
  month : Nat
  day : Nat
  hour : Nat
  minute : Nat
deriving DecidableEq, Repr

/-- The zero `time.Time{}`, which `time.Parse` returns next to an error: January 1 of
year 1, 00:00:00 UTC. -/
def Time.zero : Time := ⟨1, 1, 1, 0, 0⟩

/-- Method `Day` of `time.Time`: the day of the month. -/
def Time.Day (t : Time) : Int := t.day

/-- Method `Hour` of `time.Time`: the hour within the day. -/
def Time.Hour (t : Time) : Int := t.hour

/-- Value of a decimal digit. -/
def digitVal (c : Char) : Nat := c.toNat - 48

/-- `getnum` of package `time`: a leading number of one or two digits (exactly two when
`fixed`), and the rest of the text. -/
def getnum : List Char → Bool → Option (Nat × List Char)
  | [], _ => none
  | [a], fixed =>
    if isDigitByte a then (if fixed then none else some (digitVal a, [])) else none
  | a :: b :: rest, fixed =>
    if isDigitByte a then
      if isDigitByte b then some (digitVal a * 10 + digitVal b, rest)
      else if fixed then none else some (digitVal a, b :: rest)
    else none

/-- `skip` of package `time` for a one-character literal prefix of the layout. -/
def skipChar (sep : Nat) : List Char → Option (List Char)
  | [] => none
  | c :: cs => if c.toNat = sep then some cs else none

/-- `isLeap` of package `time`. -/
def isLeap (year : Nat) : Bool :=
  decide (year % 4 = 0) && (decide (year % 100 ≠ 0) || decide (year % 400 = 0))

/-- `daysIn` of package `time`. -/
def daysIn (month year : Nat) : Nat :=
  if month = 2 then (if isLeap year then 29 else 28)
  else if month = 4 ∨ month = 6 ∨ month = 9 ∨ month = 11 then 30
  else 31

/-- `time.Parse("2006-01-02", value)`: a four-digit year, `-`, a two-digit month in
1..12, `-`, a two-digit day, nothing after it, and the day within the month.  `none`
stands for a returned error. -/
def parseDate (value : String) : Option Time :=
  match value.data with
  | y1 :: y2 :: y3 :: y4 :: rest =>
    if isDigitByte y1 && isDigitByte y2 && isDigitByte y3 && isDigitByte y4 then
      let year := digitVal y1 * 1000 + digitVal y2 * 100 + digitVal y3 * 10 + digitVal y4
      match skipChar 45 rest with
      | none => none
      | some rest =>
        match getnum rest true with
        | none => none
        | some (month, rest) =>
          if month = 0 ∨ 12 < month then none
          else
            match skipChar 45 rest with
            | none => none
            | some rest =>
              match getnum rest true with
              | none => none
              | some (day, rest) =>
                if !rest.isEmpty then none
                else if day < 1 ∨ daysIn month year < day then none
                else some ⟨year, month, day, 0, 0⟩
    else none
  | _ => none

/-- `time.Parse("15:04", value)`: an hour of one or two digits below 24, `:`, a two-digit
minute below 60, nothing after it; the date fields left out of the layout make January 1
of year 0.  `none` stands for a returned error. -/
def parseClock (value : String) : Option Time :=
  match getnum value.data false with
  | none => none
  | some (hour, rest) =>
    if 24 ≤ hour then none
    else
      match skipChar 58 rest with
      | none => none
      | some rest =>
        match getnum rest true with
        | none => none
        | some (min, rest) =>
          if 60 ≤ min then none
          else if !rest.isEmpty then none
          else some ⟨0, 1, 1, hour, min⟩

/-- The `time.Time` a caller holds after `t, _ := time.Parse(...)`: the parsed time, or
the zero time when an error was returned. -/
def timeOrZero (r : Option Time) : Time := r.getD Time.zero

/-! ## validateReceipt -/

/-- The loop of `validateReceipt` over the items: `false` at the first item whose
description or price does not match. -/
def validateItems : List Item → Bool
  | [] => true
  | item :: rest =>
    if !itemDescRegex item.ShortDescription then false
    else if !priceRegex item.Price then false
    else validateItems rest

/-- Function `validateReceipt` of `main.go`. -/
def validateReceipt (receipt : Receipt) : Bool :=
  if !retailerRegex receipt.Retailer then false
  else if (parseDate receipt.PurchaseDate).isNone then false
  else if (parseClock receipt.PurchaseTime).isNone then false
  else if !priceRegex receipt.Total then false
  else validateItems receipt.Items

/-! ## Package `unicode` and `strings.TrimSpace` -/

/-- Letters of the Latin-1 block (the `pLmask` entries of the `properties` table of
package `unicode`): A-Z, a-z, U+00AA, U+00B5, U+00BA, U+00C0-U+00D6, U+00D8-U+00F6,
U+00F8-U+00FF. -/
def latin1Letter (n : Nat) : Bool :=
  (decide (65 ≤ n) && decide (n ≤ 90)) || (decide (97 ≤ n) && decide (n ≤ 122))
    || decide (n = 170) || decide (n = 181) || decide (n = 186)
    || (decide (192 ≤ n) && decide (n ≤ 214)) || (decide (216 ≤ n) && decide (n ≤ 246))
    || (decide (248 ≤ n) && decide (n ≤ 255))

/-- `unicode.IsSpace`: the Latin-1 cases listed in the function, and the code points of
the `White_Space` property above Latin-1. -/
def IsSpace (c : Char) : Bool :=
  let n := c.toNat
  if n ≤ 255 then
    decide (n = 9) || decide (n = 10) || decide (n = 11) || decide (n = 12)
      || decide (n = 13) || decide (n = 32) || decide (n = 133) || decide (n = 160)
  else
    decide (n = 5760) || (decide (8192 ≤ n) && decide (n ≤ 8202)) || decide (n = 8232)
      || decide (n = 8233) || decide (n = 8239) || decide (n = 8287) || decide (n = 12288)

/-- `strings.TrimSpace`: the text without its leading and trailing white space. -/
def TrimSpace (cs : List Char) : List Char :=
  ((cs.dropWhile IsSpace).reverse.dropWhile IsSpace).reverse

/-- Number of bytes of the UTF-8 encoding of a code point. -/
def utf8Len (c : Char) : Nat :=
  if c.toNat < 128 then 1 else if c.toNat < 2048 then 2 else if c.toNat < 65536 then 3 else 4

/-- The builtin `len` on a string: its number of bytes. -/
def len (cs : List Char) : Nat := (cs.map utf8Len).sum

/-! ## The type `int` -/

/-- The value a 64-bit `int` holds after an operation whose exact result is `i`: the
integer congruent to `i` modulo 2^64 in the range from -2^63 to 2^63 - 1. -/
def wrap64 (i : Int) : Int :=
  (i + 9223372036854775808) % 18446744073709551616 - 9223372036854775808

/-! ## float64

A finite float64 is a sign and a magnitude, and the magnitude is counted in units of
2^-1074, the smallest positive float64: every finite float64 is a whole number of units.
A magnitude is representable when it has at most 53 significant bits and is below 2^1024.
-/

/-- A float64 value. -/
inductive F64 where
  | fin (neg : Bool) (mag : Nat)
  | inf (neg : Bool)
  | nan
deriving DecidableEq, Repr

/-- Number of bits of a natural number, with fuel. -/
def bitLenAux : Nat → Nat → Nat
  | 0, _ => 0
  | fuel + 1, n => if n = 0 then 0 else bitLenAux fuel (n / 2) + 1

/-- Number of bits of a natural number: the least `k` with `n < 2 ^ k`. -/
def bitLen (n : Nat) : Nat := bitLenAux n n

/-- A whole number of units: `n` is `n * 2^1074` units. -/
def units (n : Nat) : Nat := n <<< 1074

/-- The number 1020, kept folded in proofs: the unit is written `2 ^ -(fracExp + 54)`
there, and the large powers of two are never expanded. -/
@[irreducible] def fracExp : Nat := 1020

/-- Round the non-negative rational `n / d`, counted in units, to the nearest magnitude
with at most 53 significant bits, ties to the even significand (the exponent is not
bounded above here, see `mkFloat`). -/
def roundUnits (n d : Nat) : Nat :=
  let s := bitLen (n / d) - 53
  let g := d <<< s
  let m := n / g
  let r := n % g
  let m := if 2 * r < g then m else if 2 * r = g then (if m % 2 = 0 then m else m + 1) else m + 1
  m <<< s

/-- The largest finite magnitude, `(2^53 - 1) * 2^971`, in units. -/
def maxFinite : Nat := (9007199254740991 : Nat) <<< 2045

/-- The float64 nearest to the rational `n / d` units with the given sign: the rounded
magnitude, or an infinity when it exceeds the largest finite float64. -/
def mkFloat (neg : Bool) (n d : Nat) : F64 :=
  let u := roundUnits n d
  if maxFinite < u then F64.inf neg else F64.fin neg u

/-- Conversion of an untyped constant `n / d` to float64. -/
def F64.ofConst (n d : Nat) : F64 := mkFloat false (units n) d

/-- Product of two float64 values. -/
def F64.mul : F64 → F64 → F64
  | .nan, _ => .nan
  | _, .nan => .nan
  | .inf a, .inf b => .inf (a != b)
  | .inf a, .fin b y => if y = 0 then .nan else .inf (a != b)
  | .fin a x, .inf b => if x = 0 then .nan else .inf (a != b)
  | .fin a x, .fin b y => mkFloat (a != b) (x * y) (units 1)

/-- The float64 nearest to the sum of two signed rationals `p / d` and `q / d` units; an
exact zero is positive unless both terms are negative. -/
def signedSum (a : Bool) (p : Nat) (b : Bool) (q : Nat) (d : Nat) : F64 :=
  if a = b then mkFloat a (p + q) d
  else if q < p then mkFloat a (p - q) d
  else if p < q then mkFloat b (q - p) d
  else .fin false 0

/-- Sum of two float64 values. -/
def F64.add : F64 → F64 → F64
  | .nan, _ => .nan
  | _, .nan => .nan
  | .inf a, .inf b => if a = b then .inf a else .nan
  | .inf a, .fin _ _ => .inf a
  | .fin _ _, .inf b => .inf b
  | .fin a x, .fin b y => signedSum a x b y 1

/-- An infinite product plus a float64. -/
def infPlus (neg : Bool) : F64 → F64
  | .nan => .nan
  | .inf c => if c = neg then .inf neg else .nan
  | .fin _ _ => .inf neg

/-- Fused multiply-add: `x * y + z` computed exactly and rounded once. -/
def F64.fma : F64 → F64 → F64 → F64
  | .nan, _, _ => .nan
  | _, .nan, _ => .nan
  | .inf a, .inf b, z => infPlus (a != b) z
  | .inf a, .fin b y, z => if y = 0 then .nan else infPlus (a != b) z
  | .fin a x, .inf b, z => if x = 0 then .nan else infPlus (a != b) z
  | .fin _ _, .fin _ _, .nan => .nan
  | .fin _ _, .fin _ _, .inf c => .inf c
  | .fin a x, .fin b y, .fin c z => signedSum (a != b) (x * y) c (units z) (units 1)

/-- The expression `x * y + z`: the language lets an implementation fuse the two
operations into one that rounds once. -/
def mulAdd (fused : Bool) (x y z : F64) : F64 :=
  if fused then F64.fma x y z else F64.add (F64.mul x y) z

/-- The comparison `==` of two float64 values. -/
def F64.eq : F64 → F64 → Bool
  | .fin a x, .fin b y => (decide (x = 0) && decide (y = 0)) || (decide (a = b) && decide (x = y))
  | .inf a, .inf b => decide (a = b)
  | _, _ => false

/-- The conversion `float64(i)` of an `int`. -/
def F64.ofInt (i : Int) : F64 := mkFloat (decide (i < 0)) (units i.natAbs) 1

/-- What the language leaves to the implementation. -/
structure Runtime where
  /-- Table `unicode.Letter` above U+00FF. -/
  letterTable : Nat → Bool
  /-- Table `unicode.Digit` above U+00FF. -/
  digitTable : Nat → Bool
  /-- Result of converting to `int` a float64 that `int` cannot represent (an infinity,
  a NaN, or a value outside the 64-bit range). -/
  convOutOfRange : F64 → Int
  /-- Whether the compiler fuses `x * y + z` into one operation (it does on arm64, not on
  amd64). -/
  fusedMulAdd : Bool

/-- The integer part of a float64 (the fraction discarded, truncation towards zero) when
a 64-bit `int` can hold it. -/
def F64.truncate : F64 → Option Int
  | .fin neg x =>
    let t : Int := ((x >>> 1074 : Nat) : Int)
    let v : Int := if neg then -t else t
    if -9223372036854775808 ≤ v ∧ v ≤ 9223372036854775807 then some v else none
  | _ => none

/-- The conversion `int(f)` of a float64: its integer part; the result for a value that a
64-bit `int` cannot hold is left to the implementation (it is an `int` all the same). -/
def F64.toInt (rt : Runtime) (f : F64) : Int :=
  match f.truncate with
  | some v => v
  | none => wrap64 (rt.convOutOfRange f)

/-- `unicode.IsLetter`. -/
def IsLetter (rt : Runtime) (c : Char) : Bool :=
  if c.toNat ≤ 255 then latin1Letter c.toNat else rt.letterTable c.toNat

/-- `unicode.IsDigit`. -/
def IsDigit (rt : Runtime) (c : Char) : Bool :=
  if c.toNat ≤ 255 then isDigitByte c else rt.digitTable c.toNat

/-! ## `strconv.ParseFloat(s, 64)`

The accepted texts are those of `special` and `readFloat` of package `strconv`; the value
of an accepted text is the float64 nearest to the exact value of the literal (ties to
even), which is what the conversion routines of the package compute. -/

/-- The error kinds of `strconv.NumError`. -/
inductive NumError where
  | ErrSyntax
  | ErrRange
deriving DecidableEq, Repr

/-- A letter `a`-`f` or `A`-`F` (a hexadecimal digit that is not a decimal digit). -/
def isHexLetter (c : Char) : Bool :=
  (decide (65 ≤ c.toNat) && decide (c.toNat ≤ 70)) || (decide (97 ≤ c.toNat) && decide (c.toNat ≤ 102))

/-- Value of a hexadecimal digit that is a letter. -/
def hexLetterVal (c : Char) : Nat :=
  if c.toNat ≤ 70 then c.toNat - 55 else c.toNat - 87

/-- The code of a character, upper-case ASCII letters mapped to lower case. -/
def asciiLower (c : Char) : Nat :=
  if 65 ≤ c.toNat ∧ c.toNat ≤ 90 then c.toNat + 32 else c.toNat

/-- A leading sign: whether it is `-`, whether there is one, and the text after it. -/
def takeSign : List Char → Bool × Bool × List Char
  | [] => (false, false, [])
  | c :: cs =>
    if c.toNat = 43 then (false, true, cs)
    else if c.toNat = 45 then (true, true, cs)
    else (false, false, c :: cs)

/-- `special` of package `strconv`, for a text taken whole: an optionally signed `inf` or
`infinity`, or an unsigned `nan`, in any letter case. -/
def special (cs : List Char) : Option F64 :=
  let (neg, signed, body) := takeSign cs
  let low := body.map asciiLower
  if low = [105, 110, 102] ∨ low = [105, 110, 102, 105, 110, 105, 116, 121] then some (F64.inf neg)
  else if !signed ∧ low = [110, 97, 110] then some F64.nan
  else none

/-- What the digit loop of `readFloat` has read. -/
structure Scan where
  /-- The digits read, as a number in the base. -/
  mant : Nat
  /-- How many of them follow the point. -/
  frac : Nat
  sawDot : Bool
  sawDigits : Bool
deriving DecidableEq, Repr

/-- The digit loop of `readFloat`: digits, underscores and at most one point; stops at the
first other character and returns the text from there. -/
def scanMantissa (hex : Bool) : List Char → Scan → Scan × List Char
  | [], st => (st, [])
  | c :: cs, st =>
    if c.toNat = 95 then scanMantissa hex cs st
    else if c.toNat = 46 then
      if st.sawDot then (st, c :: cs) else scanMantissa hex cs ⟨st.mant, st.frac, true, st.sawDigits⟩
    else if isDigitByte c then
      scanMantissa hex cs
        ⟨st.mant * (if hex then 16 else 10) + digitVal c, if st.sawDot then st.frac + 1 else st.frac,
          st.sawDot, true⟩
    else if hex && isHexLetter c then
      scanMantissa hex cs
        ⟨st.mant * 16 + hexLetterVal c, if st.sawDot then st.frac + 1 else st.frac, st.sawDot, true⟩
    else (st, c :: cs)

/-- The exponent digits of `readFloat` (underscores skipped; the number stops growing once
it has reached 10000). -/
def scanExpDigits : List Char → Nat → Nat × List Char
  | [], e => (e, [])
  | c :: cs, e =>
    if c.toNat = 95 then scanExpDigits cs e
    else if isDigitByte c then scanExpDigits cs (if e < 10000 then e * 10 + digitVal c else e)
    else (e, c :: cs)

/-- The exponent of `readFloat` after its letter: an optional sign, then a digit first. -/
def scanExponent (cs : List Char) : Option (Int × List Char) :=
  let (neg, _, body) := takeSign cs
  match body with
  | [] => none
  | c :: _ =>
    if isDigitByte c then
      let (e, rest) := scanExpDigits body 0
      some (if neg then -(e : Int) else (e : Int), rest)
    else none

/-- The loop of `underscoreOK`; the state is 0 at the beginning, 1 after a digit, 2 after
an underscore, 3 after any other character. -/
def underscoreLoop (hex : Bool) : List Char → Nat → Bool
  | [], i => decide (i ≠ 2)
  | c :: cs, i =>
    if isDigitByte c || (hex && isHexLetter c) then underscoreLoop hex cs 1
    else if c.toNat = 95 then (if i ≠ 1 then false else underscoreLoop hex cs 2)
    else if i = 2 then false
    else underscoreLoop hex cs 3

/-- `underscoreOK` of package `strconv`: an underscore only between digits, or between a
base prefix and a digit. -/
def underscoreOK (cs : List Char) : Bool :=
  match (takeSign cs).2.2 with
  | a :: b :: rest =>
    if a.toNat = 48 ∧ (asciiLower b = 98 ∨ asciiLower b = 111 ∨ asciiLower b = 120) then
      underscoreLoop (decide (asciiLower b = 120)) rest 1
    else underscoreLoop false (a :: b :: rest) 0
  | body => underscoreLoop false body 0

/-- The test of `readFloat` for a base prefix: `0x` or `0X` with a character after it. -/
def hasHexPrefix : List Char → Bool
  | a :: b :: _ :: _ => decide (a.toNat = 48) && decide (asciiLower b = 120)
  | _ => false

/-- The optional exponent of `readFloat` (`e` or `E`; `p` or `P` for a hexadecimal
literal, which must have one): its value, 0 without an exponent, and the text after it. -/
def readExponent (hex : Bool) : List Char → Option (Int × List Char)
  | [] => if hex then none else some (0, [])
  | c :: cs =>
    if asciiLower c = (if hex then 112 else 101) then scanExponent cs
    else if hex then none else some (0, c :: cs)

/-- `readFloat` of package `strconv`, for a text taken whole: the sign, the digits as a
number, the exponent of the base (10, or 2 for a hexadecimal literal) and whether the
literal is hexadecimal; `none` when the text is not a number. -/
def readFloat (cs : List Char) : Option (Bool × Nat × Int × Bool) :=
  let neg := (takeSign cs).1
  let body := (takeSign cs).2.2
  let hex := hasHexPrefix body
  let r := scanMantissa hex (if hex then body.drop 2 else body) ⟨0, 0, false, false⟩
  if !r.1.sawDigits then none
  else
    match readExponent hex r.2 with
    | none => none
    | some (e, rest) =>
      if !rest.isEmpty then none
      else if !underscoreOK cs then none
      else some (neg, r.1.mant, e - (if hex then 4 * (r.1.frac : Int) else (r.1.frac : Int)), hex)

/-- The float64 nearest to the exact value `mant * base ^ e` of a literal, where the
base is 10, or 2 for a hexadecimal literal. -/
def literalValue (neg : Bool) (mant : Nat) (e : Int) (hex : Bool) : F64 :=
  let base : Nat := if hex then 2 else 10
  if 0 ≤ e then mkFloat neg (units (mant * base ^ e.toNat)) 1
  else mkFloat neg (units mant) (base ^ (-e).toNat)

/-- The value with the error `ErrRange` when it has overflowed to an infinity. -/
def rangeChecked (f : F64) : F64 × Option NumError :=
  match f with
  | F64.inf _ => (f, some NumError.ErrRange)
  | _ => (f, none)

/-- `strconv.ParseFloat(s, 64)`: the value and the error.  A text that is not a number
gives 0 and `ErrSyntax`; a number too large for a float64 gives an infinity and
`ErrRange`. -/
def ParseFloat (s : String) : F64 × Option NumError :=
  match special s.data with
  | some f => (f, none)
  | none =>
    match readFloat s.data with
    | none => (F64.fin false 0, some NumError.ErrSyntax)
    | some (neg, mant, e, hex) => rangeChecked (literalValue neg mant e hex)

/-! ## calculatePoints -/

/-- The loop of rule 1: one more for every letter or digit of the retailer name. -/
def countAlphanum (rt : Runtime) : List Char → Int → Int
  | [], alphanumCount => alphanumCount
  | c :: cs, alphanumCount =>
    countAlphanum rt cs
      (if IsLetter rt c || IsDigit rt c then wrap64 (alphanumCount + 1) else alphanumCount)

/-- The body of the loop of rule 5: the points after one more item. -/
def addItemPoints (rt : Runtime) (points : Int) (item : Item) : Int :=
  let trimmed := TrimSpace item.ShortDescription.data
  if len trimmed % 3 = 0 then
    let price := (ParseFloat item.Price).1
    wrap64 (points
      + F64.toInt rt (mulAdd rt.fusedMulAdd price (F64.ofConst 2 10) (F64.ofConst 5 10)))
  else points

/-- Function `calculatePoints` of `main.go`. -/
def calculatePoints (rt : Runtime) (doc : ReceiptDocument) : Int :=
  let points : Int := 0
  -- Rule 1
  let alphanumCount := countAlphanum rt doc.Retailer.data 0
  let points := wrap64 (points + alphanumCount)
  -- Rule 2
  let total := (ParseFloat doc.Total).1
  let points :=
    if F64.eq total (F64.ofInt (F64.toInt rt total)) then wrap64 (points + 50) else points
  -- Rule 3
  let points :=
    if Int.tmod (F64.toInt rt (F64.mul total (F64.ofConst 100 1))) 25 = 0
    then wrap64 (points + 25) else points
  -- Rule 4
  let points := wrap64 (points + wrap64 (((doc.Items.length / 2 : Nat) : Int) * 5))
  -- Rule 5
  let points := doc.Items.foldl (addItemPoints rt) points
  -- Rule 6
  let purchaseDate := timeOrZero (parseDate doc.PurchaseDate)
  let points := if Int.tmod purchaseDate.Day 2 ≠ 0 then wrap64 (points + 6) else points
  -- Rule 7
  let purchaseTime := timeOrZero (parseClock doc.PurchaseTime)
  let points :=
    if purchaseTime.Hour ≥ 14 ∧ purchaseTime.Hour < 16 then wrap64 (points + 10) else points
  points

/-- The document `processReceipt` stores for a receipt under the identifier `id`. -/
def toDocument (id : String) (receipt : Receipt) : ReceiptDocument :=
  ⟨id, receipt.Retailer, receipt.PurchaseDate, receipt.PurchaseTime, receipt.Items, receipt.Total⟩

/-- A runtime for evaluating examples: the amd64 compiler, whose conversion gives the
least `int` for every float64 that `int` cannot represent and which does not fuse, and
tables that stop at U+00FF (the examples only use strings of the Latin-1 range, on which
the tables are not consulted). -/
def amd64Latin1 : Runtime :=
  ⟨fun _ => false, fun _ => false, fun _ => -9223372036854775808, false⟩

/-! ## The seven rules, one by one

`calculatePoints` adds the amounts of seven rules to one counter; the amounts are named
here so that statements can speak of one rule.  Each amount is the exact number the rule
adds; `calculatePoints_eq_rules` below shows that the function returns their sum wrapped
to 64 bits. -/

/-- Amount of rule 1: the counter `alphanumCount` of the letters and digits of the
retailer name. -/
def rule1Points (rt : Runtime) (retailer : String) : Int := countAlphanum rt retailer.data 0

/-- Amount of rule 2: 50 when the total equals its own integer part. -/
def rule2Points (rt : Runtime) (total : String) : Int :=
  let total := (ParseFloat total).1
  if F64.eq total (F64.ofInt (F64.toInt rt total)) then 50 else 0

/-- Amount of rule 3: 25 when the integer part of a hundred times the total is a
multiple of 25. -/
def rule3Points (rt : Runtime) (total : String) : Int :=
  let total := (ParseFloat total).1
  if Int.tmod (F64.toInt rt (F64.mul total (F64.ofConst 100 1))) 25 = 0 then 25 else 0

/-- Amount of rule 4: 5 for every two items. -/
def rule4Points (items : List Item) : Int := ((items.length / 2 : Nat) : Int) * 5

/-- Amount of rule 5 for one item. -/
def itemPoints (rt : Runtime) (item : Item) : Int := addItemPoints rt 0 item

/-- Amount of rule 5: the sum over the items. -/
def rule5Points (rt : Runtime) (items : List Item) : Int := (items.map (itemPoints rt)).sum

/-- Amount of rule 6: 6 when the day of the purchase date is odd. -/
def rule6Points (purchaseDate : String) : Int :=
  if Int.tmod (timeOrZero (parseDate purchaseDate)).Day 2 ≠ 0 then 6 else 0

/-- Amount of rule 7: 10 when the hour of the purchase time is 14 or 15. -/
def rule7Points (purchaseTime : String) : Int :=
  let t := timeOrZero (parseClock purchaseTime)
  if t.Hour ≥ 14 ∧ t.Hour < 16 then 10 else 0

/-! ## Notions of the specification -/

/-- The number written by a sequence of decimal digits. -/
def decimalValue (cs : List Char) : Nat := cs.foldl (fun n c => n * 10 + digitVal c) 0

/-- The exact value in cents of a text `digits.dd`: the number its digits write, the point
left out. -/
def centsOf (s : String) : Nat := decimalValue (s.data.filter isDigitByte)

/-- The character of a decimal digit. -/
def digitChar (d : Nat) : Char := Char.ofNat (48 + d)

/-- The text `HH:MM` of an hour and a minute. -/
def clockText (h m : Nat) : String :=
  String.mk [digitChar (h / 10), digitChar (h % 10), ':', digitChar (m / 10), digitChar (m % 10)]

/-- A price of 310 digits, `1000...0.00`: it matches `priceRegex` and is too large for a
float64. -/
def hugePrice : String := String.mk ('1' :: (List.replicate 309 '0' ++ ['.', '0', '0']))

/-- The worked example of the specification. -/
def exampleReceipt : Receipt :=
  ⟨"Target", "2022-01-01", "13:01", [⟨"Pepsi - 12oz", "1.25"⟩, ⟨"Dasani", "1.40"⟩], "35.35"⟩

/-! ## Arithmetic of `int` -/

theorem wrap64_range (i : Int) :
    -9223372036854775808 ≤ wrap64 i ∧ wrap64 i ≤ 9223372036854775807 := by
  unfold wrap64
  omega

theorem wrap64_of_range (i : Int) (h : -9223372036854775808 ≤ i ∧ i ≤ 9223372036854775807) :
    wrap64 i = i := by
  unfold wrap64
  omega

theorem wrap64_add_left (a b : Int) : wrap64 (wrap64 a + b) = wrap64 (a + b) := by
  unfold wrap64
  omega

theorem wrap64_add_right (a b : Int) : wrap64 (a + wrap64 b) = wrap64 (a + b) := by
  unfold wrap64
  omega

theorem wrap64_wrap64 (a : Int) : wrap64 (wrap64 a) = wrap64 a := by
  unfold wrap64
  omega

theorem truncate_range (f : F64) (v : Int) (h : f.truncate = some v) :
    -9223372036854775808 ≤ v ∧ v ≤ 9223372036854775807 := by
  cases f with
  | fin neg x =>
    simp only [F64.truncate] at h
    split_ifs at h <;> simp only [Option.some.injEq] at h <;> omega
  | inf neg => simp [F64.truncate] at h
  | nan => simp [F64.truncate] at h

/-- The conversion to `int` gives an `int`. -/
theorem toInt_range (rt : Runtime) (f : F64) :
    -9223372036854775808 ≤ F64.toInt rt f ∧ F64.toInt rt f ≤ 9223372036854775807 := by
  unfold F64.toInt
  cases h : f.truncate with
  | some v => exact truncate_range f v h
  | none => exact wrap64_range _

/-! ## The function is the sum of its rules -/

theorem itemPoints_eq (rt : Runtime) (item : Item) :
    itemPoints rt item
      = if len (TrimSpace item.ShortDescription.data) % 3 = 0
        then F64.toInt rt (mulAdd rt.fusedMulAdd (ParseFloat item.Price).1 (F64.ofConst 2 10)
          (F64.ofConst 5 10))
        else 0 := by
  simp only [itemPoints, addItemPoints]
  split_ifs
  · rw [zero_add]
    exact wrap64_of_range _ (toInt_range rt _)
  · rfl

theorem foldl_addItemPoints (rt : Runtime) (items : List Item) (points : Int) :
    items.foldl (addItemPoints rt) (wrap64 points) = wrap64 (points + rule5Points rt items) := by
  induction items generalizing points with
  | nil => simp [rule5Points]
  | cons item rest ih =>
    have h : addItemPoints rt (wrap64 points) item = wrap64 (points + itemPoints rt item) := by
      simp only [itemPoints, addItemPoints]
      split_ifs
      · rw [zero_add, wrap64_add_left, wrap64_of_range _ (toInt_range rt _)]
      · rw [add_zero]
    simp only [List.foldl_cons, h, ih, rule5Points, List.map_cons, List.sum_cons]
    rw [add_assoc]

/-- The function returns the sum of the amounts of its seven rules, wrapped to 64 bits. -/
theorem calculatePoints_eq_rules (rt : Runtime) (doc : ReceiptDocument) :
    calculatePoints rt doc =
      wrap64 (rule1Points rt doc.Retailer + rule2Points rt doc.Total + rule3Points rt doc.Total
        + rule4Points doc.Items + rule5Points rt doc.Items + rule6Points doc.PurchaseDate
        + rule7Points doc.PurchaseTime) := by
  simp only [calculatePoints, rule1Points, rule2Points, rule3Points, rule4Points, rule6Points,
    rule7Points, zero_add]
  have e2 : ∀ (p : Int) (c : Prop) [Decidable c] (k : Int),
      (if c then wrap64 (wrap64 p + k) else wrap64 p) = wrap64 (p + if c then k else 0) := by
    intro p c _ k
    split_ifs
    · exact wrap64_add_left p k
    · rw [add_zero]
  rw [e2, e2, wrap64_add_right, wrap64_add_left, foldl_addItemPoints, e2, e2]

/-- When the sum of the seven amounts is an `int`, the function returns it. -/
theorem calculatePoints_eq_sum (rt : Runtime) (doc : ReceiptDocument) (s : Int)
    (hs : rule1Points rt doc.Retailer + rule2Points rt doc.Total + rule3Points rt doc.Total
        + rule4Points doc.Items + rule5Points rt doc.Items + rule6Points doc.PurchaseDate
        + rule7Points doc.PurchaseTime = s)
    (hr : -9223372036854775808 ≤ s ∧ s ≤ 9223372036854775807) :
    calculatePoints rt doc = s := by
  rw [calculatePoints_eq_rules, hs, wrap64_of_range s hr]

theorem calculatePoints_range (rt : Runtime) (doc : ReceiptDocument) :
    -9223372036854775808 ≤ calculatePoints rt doc
      ∧ calculatePoints rt doc ≤ 9223372036854775807 := by
  rw [calculatePoints_eq_rules]
  exact wrap64_range _

/-! ## Evaluation lemmas -/

theorem toInt_of_truncate (rt : Runtime) (f : F64) (v : Int) (h : f.truncate = some v) :
    F64.toInt rt f = v := by
  simp [F64.toInt, h]

theorem rule2Points_of (rt : Runtime) (s : String) (v : Int) (b : Bool)
    (h1 : (ParseFloat s).1.truncate = some v)
    (h2 : F64.eq (ParseFloat s).1 (F64.ofInt v) = b) :
    rule2Points rt s = if b then 50 else 0 := by
  simp only [rule2Points, toInt_of_truncate rt _ v h1, h2]

theorem rule3Points_of (rt : Runtime) (s : String) (v : Int)
    (h1 : (F64.mul (ParseFloat s).1 (F64.ofConst 100 1)).truncate = some v) :
    rule3Points rt s = if Int.tmod v 25 = 0 then 25 else 0 := by
  simp only [rule3Points, toInt_of_truncate rt _ v h1]

theorem itemPoints_of (rt : Runtime) (item : Item) (v : Int)
    (h1 : ∀ fused, (mulAdd fused (ParseFloat item.Price).1 (F64.ofConst 2 10)
      (F64.ofConst 5 10)).truncate = some v) :
    itemPoints rt item = if len (TrimSpace item.ShortDescription.data) % 3 = 0 then v else 0 := by
  rw [itemPoints_eq, toInt_of_truncate rt _ v (h1 rt.fusedMulAdd)]

/-- Letters and digits of the Latin-1 block, which need no table. -/
theorem countAlphanum_latin1 (rt : Runtime) (cs : List Char) (n : Int)
    (h : ∀ c ∈ cs, c.toNat ≤ 255) :
    countAlphanum rt cs (wrap64 n)
      = wrap64 (n + ((cs.filter fun c => latin1Letter c.toNat || isDigitByte c).length : Int)) := by
  induction cs generalizing n with
  | nil => simp [countAlphanum]
  | cons c cs ih =>
    have hc : c.toNat ≤ 255 := h c (List.mem_cons_self _ _)
    have hcs : ∀ c ∈ cs, c.toNat ≤ 255 := fun c hm => h c (List.mem_cons_of_mem _ hm)
    simp only [countAlphanum, IsLetter, IsDigit, hc, if_true, List.filter_cons]
    split_ifs
    · rw [wrap64_add_left, ih _ hcs]
      simp only [List.length_cons, Nat.cast_add, Nat.cast_one]
      congr 1
      ring
    · exact ih _ hcs

theorem validateItems_iff (items : List Item) :
    validateItems items = true ↔
      ∀ item ∈ items, itemDescRegex item.ShortDescription = true ∧ priceRegex item.Price = true := by
  induction items with
  | nil => simp [validateItems]
  | cons item rest ih =>
    simp only [validateItems, List.mem_cons, forall_eq_or_imp]
    split_ifs with h1 h2 <;> simp_all

theorem retailerClass_iff (c : Char) :
    retailerClass c = true ↔
      ((48 ≤ c.toNat ∧ c.toNat ≤ 57) ∨ (65 ≤ c.toNat ∧ c.toNat ≤ 90)
        ∨ (97 ≤ c.toNat ∧ c.toNat ≤ 122) ∨ c.toNat = 95 ∨ c.toNat = 9 ∨ c.toNat = 10
        ∨ c.toNat = 12 ∨ c.toNat = 13 ∨ c.toNat = 32 ∨ c.toNat = 45 ∨ c.toNat = 38) := by
  simp only [retailerClass, isWordChar, isRegexSpace, isDigitByte, Bool.or_eq_true,
    Bool.and_eq_true, decide_eq_true_eq]
  tauto

/-! ## Rounding: a float64 is never crossed -/

theorem bitLenAux_le_iff (fuel n k : Nat) (h : n ≤ fuel) :
    bitLenAux fuel n ≤ k ↔ n < 2 ^ k := by
  induction fuel generalizing n k with
  | zero =>
    have : n = 0 := by omega
    subst this
    simp [bitLenAux]
  | succ fuel ih =>
    unfold bitLenAux
    by_cases hn : n = 0
    · subst hn
      simp
    · rw [if_neg hn]
      cases k with
      | zero =>
        simp
        omega
      | succ k =>
        rw [Nat.add_le_add_iff_right, ih (n / 2) k (by omega), pow_succ]
        omega

theorem bitLen_le_iff (n k : Nat) : bitLen n ≤ k ↔ n < 2 ^ k :=
  bitLenAux_le_iff n n k (le_refl n)

theorem lt_two_pow_bitLen (n : Nat) : n < 2 ^ bitLen n :=
  (bitLen_le_iff n (bitLen n)).1 (le_refl _)

theorem two_pow_le_of_lt_bitLen (n k : Nat) (h : k < bitLen n) : 2 ^ k ≤ n := by
  by_contra hc
  have := (bitLen_le_iff n k).2 (by omega)
  omega

/-- The rounded magnitude is the quotient by the spacing or its successor, times the
spacing, and the quotient itself when the division is exact. -/
theorem roundUnits_spec (n d : Nat) (hd : 0 < d) :
    ∃ m, roundUnits n d = m * 2 ^ (bitLen (n / d) - 53)
      ∧ n / (d * 2 ^ (bitLen (n / d) - 53)) ≤ m
      ∧ m ≤ n / (d * 2 ^ (bitLen (n / d) - 53)) + 1
      ∧ (n % (d * 2 ^ (bitLen (n / d) - 53)) = 0 → m = n / (d * 2 ^ (bitLen (n / d) - 53))) := by
  have hg : 0 < d * 2 ^ (bitLen (n / d) - 53) := Nat.mul_pos hd (Nat.two_pow_pos _)
  simp only [roundUnits, Nat.shiftLeft_eq]
  refine ⟨_, rfl, ?_, ?_, ?_⟩
  · split_ifs <;> omega
  · split_ifs <;> omega
  · intro h0
    rw [h0]
    simp [hg]

/-- Rounding does not go above a float64 that is above the exact value. -/
theorem roundUnits_le (n d a j : Nat) (hd : 0 < d) (ha : a < 2 ^ 53)
    (h : n ≤ a * 2 ^ j * d) : roundUnits n d ≤ a * 2 ^ j := by
  obtain ⟨m, hm, hlo, hhi, hex⟩ := roundUnits_spec n d hd
  rw [hm]
  set s := bitLen (n / d) - 53 with hs
  have hq : n / d ≤ a * 2 ^ j := Nat.div_le_of_le_mul (by rw [mul_comm]; exact h)
  have hsj : s ≤ j := by
    have h1 : n / d < 2 ^ (53 + j) := by
      calc n / d ≤ a * 2 ^ j := hq
        _ < 2 ^ 53 * 2 ^ j := Nat.mul_lt_mul_of_pos_right ha (Nat.two_pow_pos _)
        _ = 2 ^ (53 + j) := (pow_add 2 53 j).symm
    have := (bitLen_le_iff (n / d) (53 + j)).2 h1
    omega
  have hR : a * 2 ^ j = a * 2 ^ (j - s) * 2 ^ s := by
    rw [mul_assoc, ← pow_add, Nat.sub_add_cancel hsj]
  have hn : n ≤ a * 2 ^ (j - s) * (d * 2 ^ s) := by
    calc n ≤ a * 2 ^ j * d := h
      _ = a * 2 ^ (j - s) * (d * 2 ^ s) := by rw [hR]; ring
  have hg : 0 < d * 2 ^ s := Nat.mul_pos hd (Nat.two_pow_pos _)
  have hmle : n / (d * 2 ^ s) ≤ a * 2 ^ (j - s) := Nat.div_le_of_le_mul (by rw [mul_comm]; exact hn)
  rw [hR]
  apply Nat.mul_le_mul_right
  rcases Nat.lt_or_ge (n / (d * 2 ^ s)) (a * 2 ^ (j - s)) with hlt | hge
  · omega
  · have heq : n / (d * 2 ^ s) = a * 2 ^ (j - s) := le_antisymm hmle hge
    have h1 : n / (d * 2 ^ s) * (d * 2 ^ s) ≤ n := Nat.div_mul_le_self n _
    rw [heq] at h1
    have h2 : n = a * 2 ^ (j - s) * (d * 2 ^ s) := le_antisymm hn h1
    have h3 : n % (d * 2 ^ s) = 0 := by
      rw [h2]
      exact Nat.mul_mod_left _ _
    rw [hex h3, heq]

/-- Rounding does not go below a float64 that is below the exact value. -/
theorem le_roundUnits (n d a j : Nat) (hd : 0 < d) (ha : a < 2 ^ 53)
    (h : a * 2 ^ j * d ≤ n) : a * 2 ^ j ≤ roundUnits n d := by
  obtain ⟨m, hm, hlo, hhi, hex⟩ := roundUnits_spec n d hd
  rw [hm]
  set s := bitLen (n / d) - 53 with hs
  have hq : a * 2 ^ j ≤ n / d := (Nat.le_div_iff_mul_le hd).2 h
  have hp : 0 < 2 ^ s := Nat.two_pow_pos _
  have hdiv : n / (d * 2 ^ s) = n / d / 2 ^ s := (Nat.div_div_eq_div_mul n d (2 ^ s)).symm
  suffices hsuff : a * 2 ^ j ≤ n / (d * 2 ^ s) * 2 ^ s from
    le_trans hsuff (Nat.mul_le_mul_right _ hlo)
  rw [hdiv]
  by_contra hc
  push_neg at hc
  rcases Nat.eq_zero_or_pos s with hs0 | hspos
  · rw [hs0] at hc
    simp at hc
    omega
  · have hbl : 52 + s < bitLen (n / d) := by omega
    have hqge : 2 ^ (52 + s) ≤ n / d := two_pow_le_of_lt_bitLen _ _ hbl
    have hmge : 2 ^ 52 ≤ n / d / 2 ^ s := by
      rw [Nat.le_div_iff_mul_le hp, ← pow_add]
      exact hqge
    have h1 : 2 ^ (52 + s) ≤ n / d / 2 ^ s * 2 ^ s := by
      rw [pow_add]
      exact Nat.mul_le_mul_right _ hmge
    have h2 : 2 ^ (52 + s) < 2 ^ (53 + j) := by
      calc 2 ^ (52 + s) ≤ n / d / 2 ^ s * 2 ^ s := h1
        _ < a * 2 ^ j := hc
        _ < 2 ^ 53 * 2 ^ j := Nat.mul_lt_mul_of_pos_right ha (Nat.two_pow_pos _)
        _ = 2 ^ (53 + j) := (pow_add 2 53 j).symm
    have hsj : s ≤ j := by
      have := (Nat.pow_lt_pow_iff_right (by norm_num : 1 < 2)).1 h2
      omega
    have hR : a * 2 ^ j = a * 2 ^ (j - s) * 2 ^ s := by
      rw [mul_assoc, ← pow_add, Nat.sub_add_cancel hsj]
    rw [hR] at hc hq
    have h3 : n / d / 2 ^ s < a * 2 ^ (j - s) := lt_of_mul_lt_mul_right hc (Nat.zero_le _)
    have h4 : (n / d / 2 ^ s + 1) * 2 ^ s ≤ a * 2 ^ (j - s) * 2 ^ s :=
      Nat.mul_le_mul_right _ h3
    have h5 : n / d < (n / d / 2 ^ s + 1) * 2 ^ s := by
      rw [mul_comm]
      exact Nat.lt_mul_div_succ _ hp
    omega

/-- A float64 rounds to itself. -/
theorem roundUnits_exact (n d a j : Nat) (hd : 0 < d) (ha : a < 2 ^ 53)
    (h : n = a * 2 ^ j * d) : roundUnits n d = a * 2 ^ j :=
  le_antisymm (roundUnits_le n d a j hd ha (le_of_eq h)) (le_roundUnits n d a j hd ha (le_of_eq h.symm))

/-! ## `ParseFloat` on the texts of `priceRegex` -/

theorem isDigitByte_iff (c : Char) : isDigitByte c = true ↔ 48 ≤ c.toNat ∧ c.toNat ≤ 57 := by
  simp [isDigitByte]

theorem matchPriceTail_split (cs : List Char) (h : matchPriceTail cs = true) :
    ∃ ds p a b, cs = ds ++ [p, a, b] ∧ (∀ c ∈ ds, isDigitByte c = true) ∧ p.toNat = 46
      ∧ isDigitByte a = true ∧ isDigitByte b = true := by
  induction cs with
  | nil => simp [matchPriceTail] at h
  | cons c cs ih =>
    unfold matchPriceTail at h
    by_cases hc : isDigitByte c = true
    · rw [if_pos hc] at h
      obtain ⟨ds, p, a, b, rfl, hds, hp, ha, hb⟩ := ih h
      refine ⟨c :: ds, p, a, b, rfl, ?_, hp, ha, hb⟩
      intro x hx
      rcases List.mem_cons.1 hx with rfl | hx
      · exact hc
      · exact hds x hx
    · rw [if_neg hc] at h
      simp only [Bool.and_eq_true, decide_eq_true_eq] at h
      obtain ⟨hp, h2⟩ := h
      match cs, h2 with
      | [a, b], h2 =>
        simp only [matchTwoDigitsEnd, Bool.and_eq_true] at h2
        exact ⟨[], c, a, b, rfl, by simp, hp, h2.1, h2.2⟩

/-- A text matches `^\d+\.\d{2}$` exactly when it is one or more digits, a point and two
digits. -/
theorem matchPrice_iff (cs : List Char) :
    matchPrice cs = true ↔
      ∃ ds p a b, cs = ds ++ [p, a, b] ∧ ds ≠ [] ∧ (∀ c ∈ ds, isDigitByte c = true)
        ∧ p.toNat = 46 ∧ isDigitByte a = true ∧ isDigitByte b = true := by
  constructor
  · intro h
    cases cs with
    | nil => simp [matchPrice] at h
    | cons c cs =>
      simp only [matchPrice, Bool.and_eq_true] at h
      obtain ⟨ds, p, a, b, rfl, hds, hp, ha, hb⟩ := matchPriceTail_split cs h.2
      refine ⟨c :: ds, p, a, b, rfl, by simp, ?_, hp, ha, hb⟩
      intro x hx
      rcases List.mem_cons.1 hx with rfl | hx
      · exact h.1
      · exact hds x hx
  · rintro ⟨ds, p, a, b, rfl, hne, hds, hp, ha, hb⟩
    have tail : ∀ es : List Char, (∀ c ∈ es, isDigitByte c = true) →
        matchPriceTail (es ++ [p, a, b]) = true := by
      intro es hes
      induction es with
      | nil =>
        have hpd : isDigitByte p = false := by simp [isDigitByte, hp]
        simp [matchPriceTail, matchTwoDigitsEnd, hpd, hp, ha, hb]
      | cons e es ih =>
        have he : isDigitByte e = true := hes e (List.mem_cons_self _ _)
        simp only [List.cons_append, matchPriceTail, he, if_true]
        exact ih (fun c hc => hes c (List.mem_cons_of_mem _ hc))
    cases ds with
    | nil => exact absurd rfl hne
    | cons d ds =>
      simp only [List.cons_append, matchPrice, Bool.and_eq_true]
      exact ⟨hds d (List.mem_cons_self _ _), tail ds (fun c hc => hds c (List.mem_cons_of_mem _ hc))⟩

theorem asciiLower_of_lt (c : Char) (h : c.toNat < 65) : asciiLower c = c.toNat := by
  simp only [asciiLower]
  rw [if_neg]
  omega

theorem scanMantissa_digits (ds rest : List Char) (hds : ∀ c ∈ ds, isDigitByte c = true)
    (m f : Nat) (sd : Bool) :
    scanMantissa false (ds ++ rest) ⟨m, f, false, sd⟩
      = scanMantissa false rest
          ⟨ds.foldl (fun n c => n * 10 + digitVal c) m, f, false, sd || !ds.isEmpty⟩ := by
  induction ds generalizing m sd with
  | nil => simp
  | cons c cs ih =>
    have hc := (isDigitByte_iff c).1 (hds c (List.mem_cons_self _ _))
    have h1 : ¬ c.toNat = 95 := by omega
    have h2 : ¬ c.toNat = 46 := by omega
    have h3 : isDigitByte c = true := hds c (List.mem_cons_self _ _)
    simp only [List.cons_append, scanMantissa, h1, h2, h3, if_false, if_true, List.foldl_cons,
      Bool.false_eq_true, List.append_eq]
    rw [ih (fun x hx => hds x (List.mem_cons_of_mem _ hx))]
    simp

theorem scanMantissa_fraction (p a b : Char) (hp : p.toNat = 46) (ha : isDigitByte a = true)
    (hb : isDigitByte b = true) (m : Nat) (sd : Bool) :
    scanMantissa false [p, a, b] ⟨m, 0, false, sd⟩
      = (⟨(m * 10 + digitVal a) * 10 + digitVal b, 2, true, true⟩, []) := by
  have ha' := (isDigitByte_iff a).1 ha
  have hb' := (isDigitByte_iff b).1 hb
  have a1 : ¬ a.toNat = 95 := by omega
  have a2 : ¬ a.toNat = 46 := by omega
  have b1 : ¬ b.toNat = 95 := by omega
  have b2 : ¬ b.toNat = 46 := by omega
  simp [scanMantissa, hp, ha, hb, a1, a2, b1, b2]

theorem underscoreLoop_plain (cs : List Char) (h : ∀ c ∈ cs, c.toNat ≠ 95) (i : Nat)
    (hi : i ≠ 2) : underscoreLoop false cs i = true := by
  induction cs generalizing i with
  | nil => simpa [underscoreLoop] using hi
  | cons c cs ih =>
    have hc : ¬ c.toNat = 95 := h c (List.mem_cons_self _ _)
    have hcs : ∀ x ∈ cs, x.toNat ≠ 95 := fun x hx => h x (List.mem_cons_of_mem _ hx)
    simp only [underscoreLoop, hc, hi, if_false, Bool.false_and, Bool.or_false]
    split_ifs
    · exact ih hcs 1 (by decide)
    · exact ih hcs 3 (by decide)

/-- A text of digits and points, with a digit first, is read by `special` and `readFloat`
as nothing but a decimal number. -/
theorem plain_text (c : Char) (cs : List Char) (h : ∀ x ∈ c :: cs, 46 ≤ x.toNat ∧ x.toNat ≤ 57) :
    special (c :: cs) = none ∧ takeSign (c :: cs) = (false, false, c :: cs)
      ∧ hasHexPrefix (c :: cs) = false ∧ underscoreOK (c :: cs) = true := by
  have hc := h c (List.mem_cons_self _ _)
  have h43 : ¬ c.toNat = 43 := by omega
  have h45 : ¬ c.toNat = 45 := by omega
  have hts : takeSign (c :: cs) = (false, false, c :: cs) := by
    simp [takeSign, h43, h45]
  have hlow : asciiLower c = c.toNat := asciiLower_of_lt c (by omega)
  have hu : ∀ x ∈ c :: cs, x.toNat ≠ 95 := fun x hx => by
    have := h x hx
    omega
  refine ⟨?_, hts, ?_, ?_⟩
  · simp only [special, hts, List.map_cons, List.cons.injEq, hlow]
    have n1 : ¬ c.toNat = 105 := by omega
    have n2 : ¬ c.toNat = 110 := by omega
    simp [n1, n2]
  · match cs, h with
    | [], _ => rfl
    | [_], _ => rfl
    | b :: _ :: _, h =>
      have hb := h b (by simp)
      have : asciiLower b = b.toNat := asciiLower_of_lt b (by omega)
      have n : ¬ b.toNat = 120 := by omega
      simp [hasHexPrefix, this, n]
  · simp only [underscoreOK, hts]
    match cs, h, hu with
    | [], _, hu => exact underscoreLoop_plain _ hu 0 (by decide)
    | b :: rest, h, hu =>
      have hb := h b (by simp)
      have hl : asciiLower b = b.toNat := asciiLower_of_lt b (by omega)
      have n : ¬ (c.toNat = 48 ∧ (asciiLower b = 98 ∨ asciiLower b = 111 ∨ asciiLower b = 120)) := by
        rw [hl]
        omega
      simp only [n, if_false]
      exact underscoreLoop_plain _ hu 0 (by decide)

/-- The value `ParseFloat` gives for a text `digits.dd`: the float64 nearest to its exact
value, the digits read as a number of cents over 100. -/
theorem parseFloat_price (ds : List Char) (p a b : Char) (hne : ds ≠ [])
    (hds : ∀ c ∈ ds, isDigitByte c = true) (hp : p.toNat = 46)
    (ha : isDigitByte a = true) (hb : isDigitByte b = true) :
    ParseFloat (String.mk (ds ++ [p, a, b]))
      = rangeChecked (mkFloat false (units (decimalValue (ds ++ [a, b]))) 100) := by
  have hall : ∀ x ∈ ds ++ [p, a, b], 46 ≤ x.toNat ∧ x.toNat ≤ 57 := by
    intro x hx
    rcases List.mem_append.1 hx with hx | hx
    · have := (isDigitByte_iff x).1 (hds x hx)
      omega
    · simp only [List.mem_cons, List.mem_singleton, List.not_mem_nil, or_false] at hx
      have ha' := (isDigitByte_iff a).1 ha
      have hb' := (isDigitByte_iff b).1 hb
      rcases hx with rfl | rfl | rfl <;> omega
  cases ds with
  | nil => exact absurd rfl hne
  | cons d ds =>
    obtain ⟨h1, h2, h3, h4⟩ := plain_text d (ds ++ [p, a, b]) hall
    have hscan : scanMantissa false (d :: ds ++ [p, a, b]) ⟨0, 0, false, false⟩
        = (⟨decimalValue (d :: ds ++ [a, b]), 2, true, true⟩, []) := by
      rw [scanMantissa_digits (d :: ds) [p, a, b] hds, scanMantissa_fraction p a b hp ha hb]
      simp [decimalValue, List.foldl_append]
    simp only [ParseFloat, List.cons_append] at h1 ⊢
    simp only [h1, readFloat, h2, h3]
    simp only [List.cons_append] at hscan h4
    simp only [Bool.false_eq_true, if_false, hscan, readExponent, h4]
    simp [literalValue]

/-- The cents of a text `digits.dd` are the number its digits write. -/
theorem centsOf_price (ds : List Char) (p a b : Char)
    (hds : ∀ c ∈ ds, isDigitByte c = true) (hp : p.toNat = 46)
    (ha : isDigitByte a = true) (hb : isDigitByte b = true) :
    centsOf (String.mk (ds ++ [p, a, b])) = decimalValue (ds ++ [a, b]) := by
  have hpd : isDigitByte p = false := by simp [isDigitByte, hp]
  have hf : ds.filter isDigitByte = ds := List.filter_eq_self.2 hds
  simp [centsOf, List.filter_append, hf, List.filter_cons, hpd, ha, hb]

/-! ## Float operations on values that are known -/

theorem unitExp_eq : (1074 : Nat) = fracExp + 54 := by
  rw [fracExp]

theorem units_eq (n : Nat) : units n = n * 2 ^ (fracExp + 54) := by
  unfold units
  rw [Nat.shiftLeft_eq, unitExp_eq]

set_option exponentiation.threshold 4096 in
theorem le_maxFinite (a j : Nat) (ha : a < 2 ^ 53) (hj : j ≤ 2045) : a * 2 ^ j ≤ maxFinite := by
  have h1 : maxFinite = 9007199254740991 * 2 ^ 2045 := by
    unfold maxFinite
    rw [Nat.shiftLeft_eq]
  rw [h1]
  have h2 : a ≤ 9007199254740991 := by
    norm_num at ha
    omega
  exact Nat.mul_le_mul h2 (Nat.pow_le_pow_right (by norm_num) hj)

theorem fracExp_le (k : Nat) (hk : k ≤ 1025) : fracExp + k ≤ 2045 := by
  rw [fracExp]
  omega

theorem mkFloat_of_le (neg : Bool) (n d : Nat) (h : roundUnits n d ≤ maxFinite) :
    mkFloat neg n d = F64.fin neg (roundUnits n d) := by
  simp only [mkFloat]
  rw [if_neg (by omega)]

/-- A rational that is a float64 converts to it. -/
theorem mkFloat_exact (neg : Bool) (n d a j : Nat) (hd : 0 < d) (ha : a < 2 ^ 53)
    (hj : j ≤ 2045) (h : n = a * 2 ^ j * d) : mkFloat neg n d = F64.fin neg (a * 2 ^ j) := by
  have e := roundUnits_exact n d a j hd ha h
  rw [mkFloat_of_le neg n d (by rw [e]; exact le_maxFinite a j ha hj), e]

theorem truncate_fin (x v : Nat) (hv : v ≤ 9223372036854775807)
    (hlo : v * 2 ^ (fracExp + 54) ≤ x) (hhi : x < (v + 1) * 2 ^ (fracExp + 54)) :
    (F64.fin false x).truncate = some (v : Int) := by
  have hx : x >>> 1074 = v := by
    rw [Nat.shiftRight_eq_div_pow, unitExp_eq]
    exact Nat.div_eq_of_lt_le hlo hhi
  simp only [F64.truncate, hx, Bool.false_eq_true, if_false]
  rw [if_pos]
  constructor <;> omega

theorem truncate_units (v : Nat) (hv : v ≤ 9223372036854775807) :
    (F64.fin false (v * 2 ^ (fracExp + 54))).truncate = some (v : Int) :=
  truncate_fin _ v hv (le_refl _)
    (Nat.mul_lt_mul_of_pos_right (Nat.lt_succ_self _) (Nat.two_pow_pos _))

theorem ofInt_natCast (v : Nat) (hv : v < 2 ^ 53) :
    F64.ofInt (v : Int) = F64.fin false (v * 2 ^ (fracExp + 54)) := by
  have h1 : decide ((v : Int) < 0) = false := by simp
  simp only [F64.ofInt, h1, Int.natAbs_ofNat, units_eq]
  exact mkFloat_exact false _ 1 v _ (by norm_num) hv (fracExp_le 54 (by norm_num))
    (Nat.mul_one _).symm

set_option maxRecDepth 100000 in
theorem ofConst_hundred : F64.ofConst 100 1 = F64.fin false (units 100) := by decide

theorem decimalValue_append (ds es : List Char) :
    decimalValue (ds ++ es) = es.foldl (fun n c => n * 10 + digitVal c) (decimalValue ds) := by
  simp [decimalValue, List.foldl_append]

set_option maxRecDepth 100000 in
theorem rule23_total_6_49 (rt : Runtime) : rule2Points rt "6.49" = 0 ∧ rule3Points rt "6.49" = 0 := by
  constructor
  · exact rule2Points_of rt "6.49" 6 false (by decide) (by decide)
  · rw [rule3Points_of rt "6.49" 649 (by decide)]
    decide

theorem ofInt_finite (v : Int) (h : -9223372036854775808 ≤ v ∧ v ≤ 9223372036854775807) :
    ∃ m, F64.ofInt v = F64.fin (decide (v < 0)) m := by
  refine ⟨roundUnits (units v.natAbs) 1, ?_⟩
  unfold F64.ofInt
  refine mkFloat_of_le _ _ _ (le_trans ?_ (le_maxFinite 1 (63 + (fracExp + 54)) (by norm_num)
    (by have := fracExp_le 117 (by norm_num); omega)))
  refine roundUnits_le _ 1 1 _ (by norm_num) (by norm_num) ?_
  have h1 : units v.natAbs = v.natAbs * 2 ^ (fracExp + 54) := units_eq _
  have h2 : 1 * 2 ^ (63 + (fracExp + 54)) * 1 = 2 ^ 63 * 2 ^ (fracExp + 54) := by
    rw [Nat.one_mul, Nat.mul_one, pow_add]
  have h3 : v.natAbs ≤ 2 ^ 63 := by
    norm_num
    omega
  rw [h1, h2]
  exact Nat.mul_le_mul_right _ h3

set_option maxRecDepth 100000 in
/-- The amounts of the rules that read neither the total nor the purchase time, for the
worked example. -/
theorem example_amounts (rt : Runtime) :
    rule1Points rt "Target" = 6 ∧ rule4Points exampleReceipt.Items = 5
      ∧ itemPoints rt ⟨"Pepsi - 12oz", "1.25"⟩ = 0 ∧ itemPoints rt ⟨"Dasani", "1.40"⟩ = 0
      ∧ rule5Points rt exampleReceipt.Items = 0 ∧ rule6Points "2022-01-01" = 6 := by
  have h1 : rule1Points rt "Target" = 6 := by
    have e : (0 : Int) = wrap64 0 := by decide
    rw [rule1Points, e, countAlphanum_latin1 rt _ _ (by decide)]
    decide
  have h5a : itemPoints rt ⟨"Pepsi - 12oz", "1.25"⟩ = 0 := by
    rw [itemPoints_of rt _ 0 (by decide)]
    simp
  have h5b : itemPoints rt ⟨"Dasani", "1.40"⟩ = 0 := by
    rw [itemPoints_of rt _ 0 (by decide)]
    simp
  refine ⟨h1, by decide, h5a, h5b, ?_, by decide⟩
  simp only [rule5Points, exampleReceipt, List.map_cons, List.map_nil, List.sum_cons,
    List.sum_nil, h5a, h5b]
  rfl

/-- The points of the worked example with another total and another purchase time, when
the amounts of rules 2, 3 and 7 are known. -/
theorem example_points (rt : Runtime) (id time total : String) (a b c : Int)
    (h2 : rule2Points rt total = a) (h3 : rule3Points rt total = b)
    (h7 : rule7Points time = c)
    (hr : -9223372036854775808 ≤ 17 + a + b + c ∧ 17 + a + b + c ≤ 9223372036854775807) :
    calculatePoints rt ⟨id, "Target", "2022-01-01", time, exampleReceipt.Items, total⟩
      = 17 + a + b + c := by
  obtain ⟨e1, e4, _, _, e5, e6⟩ := example_amounts rt
  refine calculatePoints_eq_sum rt _ _ ?_ hr
  simp only [e1, e4, e5, e6, h2, h3, h7]
  ring

/-! ## C1: a receipt without items -/

/-- C1, counterexample: the receipt of the worked example with its items removed has an
empty items list, and `validateReceipt` returns true for it. -/
theorem validateReceipt_accepts_empty_items :
    (⟨"Target", "2022-01-01", "13:01", [], "35.35"⟩ : Receipt).Items = []
      ∧ validateReceipt ⟨"Target", "2022-01-01", "13:01", [], "35.35"⟩ = true := by
  decide

/-- C1, amended: for every receipt whose items list is empty, `validateReceipt` returns
true exactly when retailer, purchaseDate, purchaseTime and total each satisfy their own
rule; the function has no check on the number of items. -/
theorem validateReceipt_empty_items (r : Receipt) (h : r.Items = []) :
    validateReceipt r
      = (retailerRegex r.Retailer && (parseDate r.PurchaseDate).isSome
          && (parseClock r.PurchaseTime).isSome && priceRegex r.Total) := by
  simp only [validateReceipt, h, validateItems]
  cases retailerRegex r.Retailer <;> cases parseDate r.PurchaseDate
    <;> cases parseClock r.PurchaseTime <;> cases priceRegex r.Total <;> rfl

/-- C1, witness: the amended statement at a receipt without items whose total is
malformed. -/
theorem validateReceipt_empty_items_witness :
    validateReceipt ⟨"Target", "2022-01-01", "13:01", [], "35.3"⟩
      = (retailerRegex "Target" && (parseDate "2022-01-01").isSome
          && (parseClock "13:01").isSome && priceRegex "35.3") :=
  validateReceipt_empty_items ⟨"Target", "2022-01-01", "13:01", [], "35.3"⟩ rfl

/-! ## C2: the retailer pattern -/

/-- C2, counterexample: the receipt of the worked example with the retailer `Café`
satisfies rules 2 to 7, its retailer is non-empty and made of Unicode letters only, and
`validateReceipt` returns false for it. -/
theorem validateReceipt_rejects_cafe :
    (parseDate "2022-01-01").isSome = true ∧ (parseClock "13:01").isSome = true
      ∧ priceRegex "35.35" = true ∧ validateItems exampleReceipt.Items = true
      ∧ exampleReceipt.Items ≠ []
      ∧ "Café".data ≠ [] ∧ (∀ c ∈ "Café".data, IsLetter amd64Latin1 c = true)
      ∧ validateReceipt ⟨"Café", "2022-01-01", "13:01", exampleReceipt.Items, "35.35"⟩ = false := by
  decide

/-- C2, amended: for every receipt whose purchaseDate, purchaseTime, total and items
satisfy rules 2 to 7, `validateReceipt` returns true if and only if the retailer is
non-empty and each of its characters is an ASCII letter, an ASCII digit, `_`, one of the
ASCII white-space characters tab, line feed, form feed, carriage return and space, `-`
or `&`; and a retailer containing `%`, `@` or a character outside ASCII (a non-ASCII
letter among them) is rejected whatever the other fields are. -/
theorem validateReceipt_iff_retailer (r : Receipt) :
    ((∃ c ∈ r.Retailer.data, c.toNat = 37 ∨ c.toNat = 64 ∨ 128 ≤ c.toNat) →
        validateReceipt r = false)
      ∧ ((parseDate r.PurchaseDate).isSome = true → (parseClock r.PurchaseTime).isSome = true →
          priceRegex r.Total = true →
          (∀ item ∈ r.Items,
            itemDescRegex item.ShortDescription = true ∧ priceRegex item.Price = true) →
          r.Items ≠ [] →
          (validateReceipt r = true ↔
            r.Retailer.data ≠ [] ∧ ∀ c ∈ r.Retailer.data,
              ((48 ≤ c.toNat ∧ c.toNat ≤ 57) ∨ (65 ≤ c.toNat ∧ c.toNat ≤ 90)
                ∨ (97 ≤ c.toNat ∧ c.toNat ≤ 122) ∨ c.toNat = 95 ∨ c.toNat = 9 ∨ c.toNat = 10
                ∨ c.toNat = 12 ∨ c.toNat = 13 ∨ c.toNat = 32 ∨ c.toNat = 45
                ∨ c.toNat = 38))) := by
  constructor
  · rintro ⟨c, hc, hbad⟩
    have hcls : retailerClass c = false := by
      rw [Bool.eq_false_iff]
      intro h
      have := (retailerClass_iff c).1 h
      omega
    have hall : r.Retailer.data.all retailerClass = false := by
      rw [Bool.eq_false_iff]
      intro h
      have := List.all_eq_true.1 h c hc
      rw [hcls] at this
      exact Bool.false_ne_true this
    simp [validateReceipt, retailerRegex, matchClassPlus, hall]
  · intro hdate htime htotal hitems _
    have hv : validateItems r.Items = true := (validateItems_iff _).2 hitems
    have hd : (parseDate r.PurchaseDate).isNone = false := by
      cases h : parseDate r.PurchaseDate <;> simp_all
    have ht : (parseClock r.PurchaseTime).isNone = false := by
      cases h : parseClock r.PurchaseTime <;> simp_all
    simp only [validateReceipt, hd, ht, htotal, hv, retailerRegex, matchClassPlus]
    simp only [← retailerClass_iff]
    cases h : r.Retailer.data <;> simp

/-- C2, witness: rules 2 to 7 hold for the worked example with the retailer
`M&M Corner Market`, and the amended equivalence holds there. -/
theorem validateReceipt_iff_retailer_witness :
    ((parseDate "2022-01-01").isSome = true ∧ (parseClock "13:01").isSome = true
        ∧ priceRegex "35.35" = true
        ∧ (∀ item ∈ exampleReceipt.Items,
            itemDescRegex item.ShortDescription = true ∧ priceRegex item.Price = true)
        ∧ exampleReceipt.Items ≠ [])
      ∧ (validateReceipt ⟨"M&M Corner Market", "2022-01-01", "13:01", exampleReceipt.Items,
            "35.35"⟩ = true ↔
          "M&M Corner Market".data ≠ [] ∧ ∀ c ∈ "M&M Corner Market".data,
            ((48 ≤ c.toNat ∧ c.toNat ≤ 57) ∨ (65 ≤ c.toNat ∧ c.toNat ≤ 90)
              ∨ (97 ≤ c.toNat ∧ c.toNat ≤ 122) ∨ c.toNat = 95 ∨ c.toNat = 9 ∨ c.toNat = 10
              ∨ c.toNat = 12 ∨ c.toNat = 13 ∨ c.toNat = 32 ∨ c.toNat = 45 ∨ c.toNat = 38)) :=
  ⟨by decide,
    (validateReceipt_iff_retailer
      ⟨"M&M Corner Market", "2022-01-01", "13:01", exampleReceipt.Items, "35.35"⟩).2
      (by decide) (by decide) (by decide) (by decide) (by decide)⟩

/-! ## C3: round-dollar totals -/

set_option maxRecDepth 100000 in
/-- C3, the code at the failing input: the total `360287970189641.00` is a round-dollar
total that the validator accepts, of 36028797018964100 cents, a multiple of 25; rule 2
adds 50 for it and rule 3 adds 0 (a hundred times the total is not a float64 and rounds to
36028797018964096, which leaves the remainder 21), so the worked example with this total
gets 67 points, 50 more than the 17 points it gets with the total `6.49`, and not 75
more. -/
theorem round_dollar_large_total (rt : Runtime) (id : String) :
    validateReceipt ⟨"Target", "2022-01-01", "13:01", exampleReceipt.Items,
        "360287970189641.00"⟩ = true
      ∧ centsOf "360287970189641.00" = 36028797018964100 ∧ 36028797018964100 % 25 = 0
      ∧ rule2Points rt "360287970189641.00" = 50
      ∧ (F64.mul (ParseFloat "360287970189641.00").1 (F64.ofConst 100 1)).truncate
          = some 36028797018964096
      ∧ rule3Points rt "360287970189641.00" = 0
      ∧ calculatePoints rt (toDocument id ⟨"Target", "2022-01-01", "13:01",
            exampleReceipt.Items, "360287970189641.00"⟩) = 67
      ∧ calculatePoints rt (toDocument id ⟨"Target", "2022-01-01", "13:01",
            exampleReceipt.Items, "6.49"⟩) = 17 := by
  have h2 : rule2Points rt "360287970189641.00" = 50 :=
    rule2Points_of rt "360287970189641.00" 360287970189641 true (by decide) (by decide)
  have h3 : rule3Points rt "360287970189641.00" = 0 := by
    rw [rule3Points_of rt "360287970189641.00" 36028797018964096 (by decide)]
    decide
  obtain ⟨e2, e3⟩ := rule23_total_6_49 rt
  have h7 : rule7Points "13:01" = 0 := by decide
  exact ⟨by decide, by decide, by decide, h2, by decide, h3,
    example_points rt id "13:01" _ 50 0 0 h2 h3 h7 (by decide),
    example_points rt id "13:01" _ 0 0 0 e2 e3 h7 (by decide)⟩

/-- Where the code agrees with the rule: for a total that is one or more decimal digits
followed by `.00` and is below 2^55 cents (36028797018963968 cents), the total and a
hundred times the total are float64 values, rule 2 adds 50 and rule 3 adds 25. -/
theorem round_dollar_below_2_55 (rt : Runtime) (ds : List Char) (hne : ds ≠ [])
    (hds : ∀ c ∈ ds, isDigitByte c = true) (hbound : decimalValue ds * 100 < 2 ^ 55) :
    rule2Points rt (String.mk (ds ++ ['.', '0', '0'])) = 50
      ∧ rule3Points rt (String.mk (ds ++ ['.', '0', '0'])) = 25 := by
  have hb55 : decimalValue ds * 100 < 36028797018963968 := by
    norm_num at hbound
    exact hbound
  have hN : decimalValue ds < 2 ^ 53 := by
    norm_num
    omega
  have h25 : 25 * decimalValue ds < 2 ^ 53 := by
    norm_num
    omega
  have hcents : decimalValue (ds ++ ['0', '0']) = decimalValue ds * 100 := by
    rw [decimalValue_append]
    simp only [List.foldl_cons, List.foldl_nil]
    have : digitVal '0' = 0 := rfl
    rw [this]
    ring
  -- the total parses to its own value
  have hparse : ParseFloat (String.mk (ds ++ ['.', '0', '0']))
      = (F64.fin false (decimalValue ds * 2 ^ (fracExp + 54)), none) := by
    rw [parseFloat_price ds '.' '0' '0' hne hds rfl rfl rfl, hcents, units_eq,
      mkFloat_exact false _ 100 (decimalValue ds) _ (by norm_num) hN (fracExp_le 54 (by norm_num))
        (Nat.mul_right_comm _ _ _)]
    rfl
  -- rule 2
  have h2 : rule2Points rt (String.mk (ds ++ ['.', '0', '0'])) = 50 := by
    rw [rule2Points_of rt _ (decimalValue ds : Int) true
      (by rw [hparse]; exact truncate_units _ (by omega))
      (by rw [hparse, ofInt_natCast _ hN]; simp [F64.eq])]
    rfl
  -- rule 3
  have h3 : rule3Points rt (String.mk (ds ++ ['.', '0', '0'])) = 25 := by
    have hmul : F64.mul (F64.fin false (decimalValue ds * 2 ^ (fracExp + 54))) (F64.ofConst 100 1)
        = F64.fin false (25 * decimalValue ds * 2 ^ (fracExp + 54 + 2)) := by
      rw [ofConst_hundred, units_eq]
      simp only [F64.mul]
      have hb : (false != false) = false := rfl
      rw [hb, units_eq]
      refine mkFloat_exact false _ _ (25 * decimalValue ds) _ (Nat.mul_pos (by norm_num)
        (Nat.two_pow_pos _)) h25 (by have := fracExp_le 56 (by norm_num); omega) ?_
      rw [pow_add _ (fracExp + 54) 2]
      ring
    have ht : (F64.fin false (25 * decimalValue ds * 2 ^ (fracExp + 54 + 2))).truncate
        = some ((decimalValue ds * 100 : Nat) : Int) := by
      have e : 25 * decimalValue ds * 2 ^ (fracExp + 54 + 2)
          = decimalValue ds * 100 * 2 ^ (fracExp + 54) := by
        rw [pow_add _ (fracExp + 54) 2]
        ring
      rw [e]
      exact truncate_units _ (by omega)
    rw [rule3Points_of rt _ ((decimalValue ds * 100 : Nat) : Int) (by rw [hparse, hmul]; exact ht)]
    have hm : Int.tmod ((decimalValue ds * 100 : Nat) : Int) 25 = 0 := by
      have : ((decimalValue ds * 100 : Nat) : Int) = 25 * (4 * (decimalValue ds : Int)) := by
        push_cast
        ring
      rw [this]
      exact Int.mul_tmod_right _ _
    rw [if_pos hm]
  exact ⟨h2, h3⟩

/-! ## C4: totals that are not a multiple of 25 cents -/

set_option maxRecDepth 100000 in
/-- C4, the code at the failing input: the total `2.01` is 201 cents, which is not a
multiple of 25, and rule 3 adds 25 for it (a hundred times the float64 nearest to 2.01 is
below 201 and truncates to 200), so that the worked example gets 42 points with this
total and 17 with the total `6.49`, and every document gets with this total the points it
gets with `6.49` plus 25, in the arithmetic of `int`.  Rule 2 has the same defect: for
the total `92233720368547758.07`, which is no round-dollar amount, it adds 50. -/
theorem rule3_total_2_01 (rt : Runtime) (id retailer date time : String) (items : List Item) :
    priceRegex "2.01" = true ∧ centsOf "2.01" = 201 ∧ 201 % 25 ≠ 0
      ∧ (F64.mul (ParseFloat "2.01").1 (F64.ofConst 100 1)).truncate = some 200
      ∧ rule2Points rt "2.01" = 0 ∧ rule3Points rt "2.01" = 25
      ∧ calculatePoints rt (toDocument id ⟨"Target", "2022-01-01", "13:01",
            exampleReceipt.Items, "2.01"⟩) = 42
      ∧ calculatePoints rt (toDocument id ⟨"Target", "2022-01-01", "13:01",
            exampleReceipt.Items, "6.49"⟩) = 17
      ∧ calculatePoints rt ⟨id, retailer, date, time, items, "2.01"⟩
          = wrap64 (calculatePoints rt ⟨id, retailer, date, time, items, "6.49"⟩ + 25)
      ∧ (calculatePoints rt ⟨id, retailer, date, time, items, "6.49"⟩ ≤ 9223372036854775782 →
          calculatePoints rt ⟨id, retailer, date, time, items, "2.01"⟩
            = calculatePoints rt ⟨id, retailer, date, time, items, "6.49"⟩ + 25)
      ∧ priceRegex "92233720368547758.07" = true
      ∧ centsOf "92233720368547758.07" % 100 = 7
      ∧ rule2Points rt "92233720368547758.07" = 50 := by
  have h2 : rule2Points rt "2.01" = 0 :=
    rule2Points_of rt "2.01" 2 false (by decide) (by decide)
  have h3 : rule3Points rt "2.01" = 25 := by
    rw [rule3Points_of rt "2.01" 200 (by decide)]
    decide
  obtain ⟨e2, e3⟩ := rule23_total_6_49 rt
  have h7 : rule7Points "13:01" = 0 := by decide
  have hw : calculatePoints rt ⟨id, retailer, date, time, items, "2.01"⟩
      = wrap64 (calculatePoints rt ⟨id, retailer, date, time, items, "6.49"⟩ + 25) := by
    simp only [calculatePoints_eq_rules, h2, h3, e2, e3, wrap64_add_left]
    congr 1
    ring
  have hbig : rule2Points rt "92233720368547758.07" = 50 :=
    rule2Points_of rt "92233720368547758.07" 92233720368547760 true (by decide) (by decide)
  refine ⟨by decide, by decide, by decide, by decide, h2, h3,
    example_points rt id "13:01" _ 0 25 0 h2 h3 h7 (by decide),
    example_points rt id "13:01" _ 0 0 0 e2 e3 h7 (by decide), hw, ?_, by decide, by decide,
    hbig⟩
  intro hle
  rw [hw]
  exact wrap64_of_range _ ⟨by have := (calculatePoints_range rt
    ⟨id, retailer, date, time, items, "6.49"⟩).1; omega, by omega⟩

/-! ## C5: the amount of rule 5 -/

set_option maxRecDepth 100000 in
/-- C5, counterexample: for the item `Dasani` (6 bytes) at the price `52777437651142.49`,
which is 5277743765114249 cents, rule 5 adds 10555487530229, and
floor(c / 500 + 1 / 2) = (c + 250) / 500 is 10555487530228. -/
theorem rule5_large_price :
    priceRegex "52777437651142.49" = true ∧ len (TrimSpace "Dasani".data) % 3 = 0
      ∧ centsOf "52777437651142.49" = 5277743765114249
      ∧ (5277743765114249 + 250) / 500 = 10555487530228
      ∧ itemPoints amd64Latin1 ⟨"Dasani", "52777437651142.49"⟩ = 10555487530229 := by
  decide

set_option maxRecDepth 100000 in
theorem ofConst_two_tenths_shift :
    F64.ofConst 2 10 = F64.fin false (3602879701896397 <<< 1020) := by decide

set_option maxRecDepth 100000 in
theorem ofConst_half_shift : F64.ofConst 5 10 = F64.fin false (1 <<< 1073) := by decide

set_option exponentiation.threshold 4096 in
/-- The constant `0.2` as a float64: 3602879701896397 * 2^-54. -/
theorem ofConst_two_tenths : F64.ofConst 2 10 = F64.fin false (3602879701896397 * 2 ^ fracExp) := by
  rw [ofConst_two_tenths_shift, Nat.shiftLeft_eq, fracExp]

/-- The constant `0.5` as a float64. -/
theorem ofConst_half : F64.ofConst 5 10 = F64.fin false (2 ^ (fracExp + 53)) := by
  have h : (1073 : Nat) = fracExp + 53 := by rw [fracExp]
  rw [ofConst_half_shift, Nat.shiftLeft_eq, h, Nat.one_mul]

/-- The lower side of the enclosure: for a price of at least `500 * k' + 250` cents with
`k' + 1` below 2^41, the float64 of the price is at least `5 * k' + 2.5` and its exact
product by the float64 of `0.2` is at least `k' + 0.5`. -/
theorem rule5_lower (e c k' : Nat) (h : 500 * k' + 250 ≤ c ∧ k' ≤ 2000000000000) :
    (10 * k' + 5) * 2 ^ (e + 53) ≤ roundUnits (c * 2 ^ (e + 54)) 100
      ∧ (2 * k' + 1) * 2 ^ (e + 53) * (1 * 2 ^ (e + 54))
          ≤ roundUnits (c * 2 ^ (e + 54)) 100 * (3602879701896397 * 2 ^ e) := by
  have p53 : (2 : Nat) ^ (e + 53) = 2 ^ e * 9007199254740992 := by rw [pow_add]; norm_num
  have p54 : (2 : Nat) ^ (e + 54) = 2 ^ e * 18014398509481984 := by rw [pow_add]; norm_num
  have lX : (10 * k' + 5) * 2 ^ (e + 53) ≤ roundUnits (c * 2 ^ (e + 54)) 100 := by
    refine le_roundUnits _ 100 _ _ (by norm_num) (by norm_num; omega) ?_
    rw [p53, p54]
    generalize (2 : Nat) ^ e = V
    have key : (10 * k' + 5) * 100 ≤ c * 2 := by omega
    calc (10 * k' + 5) * (V * 9007199254740992) * 100
        = (10 * k' + 5) * 100 * (V * 9007199254740992) := by ring
      _ ≤ c * 2 * (V * 9007199254740992) := Nat.mul_le_mul_right _ key
      _ = c * (V * 18014398509481984) := by ring
  refine ⟨lX, ?_⟩
  have step : (10 * k' + 5) * 2 ^ (e + 53) * (3602879701896397 * 2 ^ e)
      ≤ roundUnits (c * 2 ^ (e + 54)) 100 * (3602879701896397 * 2 ^ e) :=
    Nat.mul_le_mul_right _ lX
  refine le_trans ?_ step
  rw [p53, p54]
  generalize (2 : Nat) ^ e = V
  have key : (2 * k' + 1) * 18014398509481984 ≤ (10 * k' + 5) * 3602879701896397 := by
    omega
  calc (2 * k' + 1) * (V * 9007199254740992) * (1 * (V * 18014398509481984))
      = (2 * k' + 1) * 18014398509481984 * (V * V * 9007199254740992) := by ring
    _ ≤ (10 * k' + 5) * 3602879701896397 * (V * V * 9007199254740992) :=
        Nat.mul_le_mul_right _ key
    _ = (10 * k' + 5) * (V * 9007199254740992) * (3602879701896397 * V) := by ring

/-- The roundings of rule 5 stay between float64 values that enclose the exact result:
for a price of `c` cents and `k = (c + 250) / 500`, the float64 of `price * 0.2 + 0.5`
lies in `[k, k + 1023/1024]`, whether the product is rounded before the sum (the first
four bounds) or the two operations are fused (the last two). -/
theorem rule5_enclosure (e c : Nat) (hc : c < 1000000000000000) :
    roundUnits (c * 2 ^ (e + 54)) 100 ≤ (1280 * ((c + 250) / 500) + 638) * 2 ^ (e + 46)
      ∧ roundUnits (roundUnits (c * 2 ^ (e + 54)) 100 * (3602879701896397 * 2 ^ e)) (1 * 2 ^ (e + 54))
          ≤ (1024 * ((c + 250) / 500) + 511) * 2 ^ (e + 44)
      ∧ roundUnits (roundUnits (roundUnits (c * 2 ^ (e + 54)) 100 * (3602879701896397 * 2 ^ e))
            (1 * 2 ^ (e + 54)) + 2 ^ (e + 53)) 1
          ≤ (1024 * ((c + 250) / 500) + 1023) * 2 ^ (e + 44)
      ∧ (c + 250) / 500 * 2 ^ (e + 54)
          ≤ roundUnits (roundUnits (roundUnits (c * 2 ^ (e + 54)) 100 * (3602879701896397 * 2 ^ e))
            (1 * 2 ^ (e + 54)) + 2 ^ (e + 53)) 1
      ∧ roundUnits (roundUnits (c * 2 ^ (e + 54)) 100 * (3602879701896397 * 2 ^ e)
            + 2 ^ (e + 53) * 2 ^ (e + 54)) (1 * 2 ^ (e + 54))
          ≤ (1024 * ((c + 250) / 500) + 1023) * 2 ^ (e + 44)
      ∧ (c + 250) / 500 * 2 ^ (e + 54)
          ≤ roundUnits (roundUnits (c * 2 ^ (e + 54)) 100 * (3602879701896397 * 2 ^ e)
            + 2 ^ (e + 53) * 2 ^ (e + 54)) (1 * 2 ^ (e + 54)) := by
  set k := (c + 250) / 500 with hk
  have hk1 : 500 * k ≤ c + 250 := Nat.mul_div_le _ _
  have hk2 : c + 250 < 500 * k + 500 := by
    have := Nat.lt_mul_div_succ (c + 250) (by norm_num : 0 < 500)
    rw [← hk] at this
    omega
  have hkb : k ≤ 2000000000000 := by omega
  set X := roundUnits (c * 2 ^ (e + 54)) 100 with hX
  set Y := roundUnits (X * (3602879701896397 * 2 ^ e)) (1 * 2 ^ (e + 54)) with hY
  set Z := roundUnits (Y + 2 ^ (e + 53)) 1 with hZ
  have p44 : (2 : Nat) ^ (e + 44) = 2 ^ e * 17592186044416 := by rw [pow_add]; norm_num
  have p46 : (2 : Nat) ^ (e + 46) = 2 ^ e * 70368744177664 := by rw [pow_add]; norm_num
  have p53 : (2 : Nat) ^ (e + 53) = 2 ^ e * 9007199254740992 := by rw [pow_add]; norm_num
  have p54 : (2 : Nat) ^ (e + 54) = 2 ^ e * 18014398509481984 := by rw [pow_add]; norm_num
  have hd : 0 < 1 * 2 ^ (e + 54) := Nat.mul_pos (by norm_num) (Nat.two_pow_pos _)
  -- upper bounds
  have uX : X ≤ (1280 * k + 638) * 2 ^ (e + 46) := by
    refine roundUnits_le _ 100 _ _ (by norm_num) (by norm_num; omega) ?_
    rw [p46, p54]
    generalize (2 : Nat) ^ e = V
    have key : c * 256 ≤ (1280 * k + 638) * 100 := by omega
    calc c * (V * 18014398509481984) = c * 256 * (V * 70368744177664) := by ring
      _ ≤ (1280 * k + 638) * 100 * (V * 70368744177664) := Nat.mul_le_mul_right _ key
      _ = (1280 * k + 638) * (V * 70368744177664) * 100 := by ring
  have pHi : X * (3602879701896397 * 2 ^ e)
      ≤ (1024 * k + 511) * 2 ^ (e + 44) * (1 * 2 ^ (e + 54)) := by
    have step : X * (3602879701896397 * 2 ^ e)
        ≤ (1280 * k + 638) * 2 ^ (e + 46) * (3602879701896397 * 2 ^ e) :=
      Nat.mul_le_mul_right _ uX
    refine le_trans step ?_
    rw [p44, p46, p54]
    generalize (2 : Nat) ^ e = V
    have key : (1280 * k + 638) * 3602879701896397 * 4
        ≤ (1024 * k + 511) * 18014398509481984 := by omega
    calc (1280 * k + 638) * (V * 70368744177664) * (3602879701896397 * V)
        = (1280 * k + 638) * 3602879701896397 * 4 * (V * V * 17592186044416) := by ring
      _ ≤ (1024 * k + 511) * 18014398509481984 * (V * V * 17592186044416) :=
          Nat.mul_le_mul_right _ key
      _ = (1024 * k + 511) * (V * 17592186044416) * (1 * (V * 18014398509481984)) := by ring
  have uY : Y ≤ (1024 * k + 511) * 2 ^ (e + 44) :=
    roundUnits_le _ _ _ _ hd (by norm_num; omega) pHi
  have uZ : Z ≤ (1024 * k + 1023) * 2 ^ (e + 44) := by
    refine roundUnits_le _ 1 _ _ (by norm_num) (by norm_num; omega) ?_
    have step : Y + 2 ^ (e + 53) ≤ (1024 * k + 511) * 2 ^ (e + 44) + 2 ^ (e + 53) :=
      Nat.add_le_add_right uY _
    refine le_trans step (le_of_eq ?_)
    rw [p44, p53]
    ring
  have uW : roundUnits (X * (3602879701896397 * 2 ^ e) + 2 ^ (e + 53) * 2 ^ (e + 54))
      (1 * 2 ^ (e + 54)) ≤ (1024 * k + 1023) * 2 ^ (e + 44) := by
    refine roundUnits_le _ _ _ _ hd (by norm_num; omega) ?_
    refine le_trans (Nat.add_le_add_right pHi _) (le_of_eq ?_)
    rw [p44, p53, p54]
    ring
  refine ⟨uX, uY, uZ, ?_, uW, ?_⟩
  -- lower bounds
  · rcases Nat.eq_zero_or_pos k with hk0 | hkpos
    · rw [hk0]
      simp
    · obtain ⟨k', hk'⟩ : ∃ k', k = k' + 1 := ⟨k - 1, by omega⟩
      obtain ⟨_, pLo⟩ := rule5_lower e c k' (by omega)
      have lY : (2 * k' + 1) * 2 ^ (e + 53) ≤ Y :=
        le_roundUnits _ _ _ _ hd (by norm_num; omega) pLo
      have lZ : (k' + 1) * 2 ^ (e + 54) ≤ Z := by
        have h54 : (k' + 1) * 2 ^ (e + 54) = (2 * k' + 2) * 2 ^ (e + 53) := by
          rw [p53, p54]
          ring
        rw [h54]
        refine le_roundUnits _ 1 _ _ (by norm_num) (by norm_num; omega) ?_
        have step : (2 * k' + 1) * 2 ^ (e + 53) + 2 ^ (e + 53) ≤ Y + 2 ^ (e + 53) :=
          Nat.add_le_add_right lY _
        refine le_trans (le_of_eq ?_) step
        ring
      rw [hk']
      exact lZ
  · rcases Nat.eq_zero_or_pos k with hk0 | hkpos
    · rw [hk0]
      simp
    · obtain ⟨k', hk'⟩ : ∃ k', k = k' + 1 := ⟨k - 1, by omega⟩
      obtain ⟨_, pLo⟩ := rule5_lower e c k' (by omega)
      have h54 : (k' + 1) * 2 ^ (e + 54) = (2 * k' + 2) * 2 ^ (e + 53) := by
        rw [p53, p54]
        ring
      rw [hk', h54]
      refine le_roundUnits _ _ _ _ hd (by norm_num; omega) ?_
      refine le_trans (le_of_eq ?_) (Nat.add_le_add_right pLo _)
      ring

/-- The amount of rule 5 for an item whose price is a text `digits.dd` below 10^15 cents:
`(c + 250) / 500` for a price of `c` cents when the trimmed description has a multiple of
3 bytes, and 0 otherwise. -/
theorem itemPoints_price (rt : Runtime) (item : Item) (hp : priceRegex item.Price = true)
    (hc : centsOf item.Price < 1000000000000000) :
    itemPoints rt item
      = if len (TrimSpace item.ShortDescription.data) % 3 = 0
        then (((centsOf item.Price + 250) / 500 : Nat) : Int) else 0 := by
  obtain ⟨ds, p, a, b, hdata, hne, hds, hpt, ha, hb⟩ := (matchPrice_iff _).1 hp
  have hstr : item.Price = String.mk (ds ++ [p, a, b]) := by
    cases h : item.Price
    rw [h] at hdata
    simp only at hdata
    rw [hdata]
  have hcents : centsOf item.Price = decimalValue (ds ++ [a, b]) := by
    rw [hstr]
    exact centsOf_price ds p a b hds hpt ha hb
  set c := centsOf item.Price with hcdef
  obtain ⟨uX, uY, uZ, lZ, uW, lW⟩ := rule5_enclosure fracExp c hc
  have hkb : (c + 250) / 500 ≤ 2000000000000 := by omega
  set k := (c + 250) / 500 with hk
  have mX := le_maxFinite (1280 * k + 638) (fracExp + 46) (by norm_num; omega)
    (fracExp_le 46 (by norm_num))
  have mY := le_maxFinite (1024 * k + 511) (fracExp + 44) (by norm_num; omega)
    (fracExp_le 44 (by norm_num))
  have mZ := le_maxFinite (1024 * k + 1023) (fracExp + 44) (by norm_num; omega)
    (fracExp_le 44 (by norm_num))
  have hparse : (ParseFloat item.Price).1
      = F64.fin false (roundUnits (c * 2 ^ (fracExp + 54)) 100) := by
    rw [hstr, parseFloat_price ds p a b hne hds hpt ha hb, ← hcents, units_eq,
      mkFloat_of_le _ _ _ (le_trans uX mX)]
    rfl
  have hb0 : (false != false) = false := rfl
  have hlt : (1024 * k + 1023) * 2 ^ (fracExp + 44) < (k + 1) * 2 ^ (fracExp + 54) := by
    have hVpos : 0 < (2 : Nat) ^ fracExp := Nat.two_pow_pos _
    rw [pow_add _ fracExp 44, pow_add _ fracExp 54]
    generalize (2 : Nat) ^ fracExp = V at hVpos ⊢
    calc (1024 * k + 1023) * (V * 2 ^ 44) < (1024 * k + 1024) * (V * 2 ^ 44) :=
          Nat.mul_lt_mul_of_pos_right (by omega) (Nat.mul_pos hVpos (by norm_num))
      _ = (k + 1) * (V * 2 ^ 54) := by ring
  have htr : ∀ fused, (mulAdd fused (ParseFloat item.Price).1 (F64.ofConst 2 10)
      (F64.ofConst 5 10)).truncate = some ((k : Nat) : Int) := by
    intro fused
    rw [hparse, ofConst_two_tenths, ofConst_half]
    cases fused
    · -- the product is rounded, then the sum
      simp only [mulAdd, Bool.false_eq_true, if_false, F64.mul]
      rw [hb0, units_eq, mkFloat_of_le _ _ _ (le_trans uY mY)]
      simp only [F64.add, signedSum, if_true]
      rw [mkFloat_of_le _ _ _ (le_trans uZ mZ)]
      exact truncate_fin _ k (by omega) lZ (lt_of_le_of_lt uZ hlt)
    · -- one rounding
      simp only [mulAdd, if_true, F64.fma, signedSum]
      rw [hb0, units_eq, units_eq]
      simp only [if_true]
      rw [mkFloat_of_le _ _ _ (le_trans uW mZ)]
      exact truncate_fin _ k (by omega) lW (lt_of_le_of_lt uW hlt)
  exact itemPoints_of rt item k htr


/-- C5, amended: for every item whose price matches `^\d+\.\d{2}$` with exact value `c`
cents, `c` below 10^15, rule 5 adds floor(c / 500 + 1 / 2) = `(c + 250) / 500` points when
the byte length of the whitespace-trimmed shortDescription is a multiple of 3, and 0
points otherwise; the amount of rule 5 in `calculatePoints` is the sum of these per-item
amounts (the function returns the sum of the amounts of the seven rules as an `int`,
that is the sum itself when it is below 2^63). -/
theorem rule5_amounts (rt : Runtime) (doc : ReceiptDocument)
    (h : ∀ item ∈ doc.Items,
      priceRegex item.Price = true ∧ centsOf item.Price < 1000000000000000) :
    (∀ item ∈ doc.Items,
        itemPoints rt item
          = if len (TrimSpace item.ShortDescription.data) % 3 = 0
            then (((centsOf item.Price + 250) / 500 : Nat) : Int) else 0)
      ∧ rule5Points rt doc.Items
          = (doc.Items.map fun item =>
              if len (TrimSpace item.ShortDescription.data) % 3 = 0
              then (((centsOf item.Price + 250) / 500 : Nat) : Int) else 0).sum
      ∧ calculatePoints rt doc
          = wrap64 (rule1Points rt doc.Retailer + rule2Points rt doc.Total
              + rule3Points rt doc.Total + rule4Points doc.Items
              + (doc.Items.map fun item =>
                  if len (TrimSpace item.ShortDescription.data) % 3 = 0
                  then (((centsOf item.Price + 250) / 500 : Nat) : Int) else 0).sum
              + rule6Points doc.PurchaseDate + rule7Points doc.PurchaseTime)
      ∧ (∀ s : Int,
          rule1Points rt doc.Retailer + rule2Points rt doc.Total + rule3Points rt doc.Total
              + rule4Points doc.Items
              + (doc.Items.map fun item =>
                  if len (TrimSpace item.ShortDescription.data) % 3 = 0
                  then (((centsOf item.Price + 250) / 500 : Nat) : Int) else 0).sum
              + rule6Points doc.PurchaseDate + rule7Points doc.PurchaseTime = s →
          -9223372036854775808 ≤ s ∧ s ≤ 9223372036854775807 →
          calculatePoints rt doc = s) := by
  have h1 : ∀ item ∈ doc.Items,
      itemPoints rt item
        = if len (TrimSpace item.ShortDescription.data) % 3 = 0
          then (((centsOf item.Price + 250) / 500 : Nat) : Int) else 0 :=
    fun item hm => itemPoints_price rt item (h item hm).1 (h item hm).2
  have h2 : rule5Points rt doc.Items
      = (doc.Items.map fun item =>
          if len (TrimSpace item.ShortDescription.data) % 3 = 0
          then (((centsOf item.Price + 250) / 500 : Nat) : Int) else 0).sum := by
    unfold rule5Points
    rw [List.map_congr_left h1]
  refine ⟨h1, h2, ?_, ?_⟩
  · rw [calculatePoints_eq_rules, h2]
  · intro s hs hr
    exact calculatePoints_eq_sum rt doc s (by rw [h2]; exact hs) hr

set_option maxRecDepth 100000 in
/-- C5, witness: the amended statement at the worked example with the prices `12.25` and
`7.50`, where rule 5 adds 2 and 2. -/
theorem rule5_amounts_witness :
    (∀ item ∈ [Item.mk "Pepsi - 12oz" "12.25", Item.mk "Dasani" "7.50"],
        priceRegex item.Price = true ∧ centsOf item.Price < 1000000000000000)
      ∧ rule5Points amd64Latin1 [Item.mk "Pepsi - 12oz" "12.25", Item.mk "Dasani" "7.50"]
          = ([Item.mk "Pepsi - 12oz" "12.25", Item.mk "Dasani" "7.50"].map fun item =>
              if len (TrimSpace item.ShortDescription.data) % 3 = 0
              then (((centsOf item.Price + 250) / 500 : Nat) : Int) else 0).sum
      ∧ ([Item.mk "Pepsi - 12oz" "12.25", Item.mk "Dasani" "7.50"].map fun item =>
              if len (TrimSpace item.ShortDescription.data) % 3 = 0
              then (((centsOf item.Price + 250) / 500 : Nat) : Int) else 0).sum = 4 :=
  ⟨by decide,
    (rule5_amounts amd64Latin1
      ⟨"id", "Target", "2022-01-01", "13:01",
        [Item.mk "Pepsi - 12oz" "12.25", Item.mk "Dasani" "7.50"], "35.35"⟩ (by decide)).2.1,
    by decide⟩

/-! ## C6: rounding up -/

set_option maxRecDepth 100000 in
/-- C6, the code at the failing input: for the item `Pepsi - 12oz` (12 bytes) at the price
`1.25` rule 5 adds 0 although 1.25 * 0.2 = 0.25 rounds up to 1, and at the price `12.25`
it adds 2 although 12.25 * 0.2 = 2.45 rounds up to 3 (the ceiling of `c / 500` for a price
of `c` cents is written `(c + 499) / 500`). -/
theorem rule5_rounds_half_up (rt : Runtime) :
    len (TrimSpace "Pepsi - 12oz".data) % 3 = 0
      ∧ centsOf "1.25" = 125 ∧ (125 + 499) / 500 = 1
      ∧ itemPoints rt ⟨"Pepsi - 12oz", "1.25"⟩ = 0
      ∧ centsOf "12.25" = 1225 ∧ (1225 + 499) / 500 = 3
      ∧ itemPoints rt ⟨"Pepsi - 12oz", "12.25"⟩ = 2 := by
  have h1 : itemPoints rt ⟨"Pepsi - 12oz", "1.25"⟩ = 0 := by
    rw [itemPoints_of rt _ 0 (by decide)]
    simp
  have h2 : itemPoints rt ⟨"Pepsi - 12oz", "12.25"⟩ = 2 := by
    rw [itemPoints_of rt _ 2 (by decide)]
    decide
  exact ⟨by decide, by decide, by decide, h1, by decide, by decide, h2⟩

/-! ## C7: the purchase time -/

theorem digitChar_toNat (d : Nat) (h : d < 10) : (digitChar d).toNat = 48 + d := by
  interval_cases d <;> rfl

theorem parseClock_clockText (h m : Nat) (hh : h < 24) (hm : m < 60) :
    parseClock (clockText h m) = some ⟨0, 1, 1, h, m⟩ := by
  have a1 := digitChar_toNat (h / 10) (by omega)
  have a2 := digitChar_toNat (h % 10) (by omega)
  have a3 := digitChar_toNat (m / 10) (by omega)
  have a4 := digitChar_toNat (m % 10) (by omega)
  have e : ':'.toNat = 58 := rfl
  have b1 : 48 + h / 10 ≤ 57 := by omega
  have b2 : 48 + h % 10 ≤ 57 := by omega
  have b3 : 48 + m / 10 ≤ 57 := by omega
  have b4 : 48 + m % 10 ≤ 57 := by omega
  have c1 : ¬ 24 ≤ h / 10 * 10 + h % 10 := by omega
  have c2 : ¬ 60 ≤ m / 10 * 10 + m % 10 := by omega
  simp [parseClock, clockText, getnum, isDigitByte, digitVal, skipChar, a1, a2, a3, a4, e,
    b1, b2, b3, b4, c1, c2]
  omega


set_option maxRecDepth 100000 in
/-- C7, counterexample: the receipt with the items `Dasani` at `46116860184273870000.00`
and `Dasani` at `5030.00` and the total `6.49` is accepted by the validator; with the
purchase time `16:00` it gets 9223372036854775807 points, the largest `int`, and with
`14:00` the counter wraps around and it gets -9223372036854775799 points, which is not 10
more. -/
theorem rule7_wraps_around :
    validateReceipt ⟨"Target", "2022-01-01", "16:00",
        [⟨"Dasani", "46116860184273870000.00"⟩, ⟨"Dasani", "5030.00"⟩], "6.49"⟩ = true
      ∧ validateReceipt ⟨"Target", "2022-01-01", "14:00",
        [⟨"Dasani", "46116860184273870000.00"⟩, ⟨"Dasani", "5030.00"⟩], "6.49"⟩ = true
      ∧ itemPoints amd64Latin1 ⟨"Dasani", "46116860184273870000.00"⟩ = 9223372036854774784
      ∧ calculatePoints amd64Latin1 ⟨"id", "Target", "2022-01-01", "16:00",
          [⟨"Dasani", "46116860184273870000.00"⟩, ⟨"Dasani", "5030.00"⟩], "6.49"⟩
          = 9223372036854775807
      ∧ calculatePoints amd64Latin1 ⟨"id", "Target", "2022-01-01", "14:00",
          [⟨"Dasani", "46116860184273870000.00"⟩, ⟨"Dasani", "5030.00"⟩], "6.49"⟩
          = -9223372036854775799
      ∧ calculatePoints amd64Latin1 ⟨"id", "Target", "2022-01-01", "14:00",
          [⟨"Dasani", "46116860184273870000.00"⟩, ⟨"Dasani", "5030.00"⟩], "6.49"⟩
          ≠ calculatePoints amd64Latin1 ⟨"id", "Target", "2022-01-01", "16:00",
            [⟨"Dasani", "46116860184273870000.00"⟩, ⟨"Dasani", "5030.00"⟩], "6.49"⟩ + 10 := by
  decide

/-- C7, amended: for a purchase time `HH:MM` with `HH < 24` and `MM < 60`, rule 7 adds 10
when `14 ≤ HH < 16` and 0 otherwise, so the points are the amounts of rules 1 to 6 plus
that, as an `int`; and of two documents that differ only in the purchase time, the one
with `14:00` has 10 more than the one with `16:00` in the wrapping arithmetic of `int`,
which is exactly 10 more whenever the one with `16:00` has at most 2^63 - 11 points, and
likewise the one with `15:59` against the one with `13:59`. -/
theorem rule7_half_open_interval (rt : Runtime) (id retailer date total : String)
    (items : List Item) (h m : Nat) (hh : h < 24) (hm : m < 60) :
    rule7Points (clockText h m) = (if 14 ≤ h ∧ h < 16 then 10 else 0)
      ∧ calculatePoints rt ⟨id, retailer, date, clockText h m, items, total⟩
          = wrap64 (rule1Points rt retailer + rule2Points rt total + rule3Points rt total
              + rule4Points items + rule5Points rt items + rule6Points date
              + (if 14 ≤ h ∧ h < 16 then 10 else 0))
      ∧ calculatePoints rt ⟨id, retailer, date, "14:00", items, total⟩
          = wrap64 (calculatePoints rt ⟨id, retailer, date, "16:00", items, total⟩ + 10)
      ∧ (calculatePoints rt ⟨id, retailer, date, "16:00", items, total⟩ ≤ 9223372036854775797 →
          calculatePoints rt ⟨id, retailer, date, "14:00", items, total⟩
            = calculatePoints rt ⟨id, retailer, date, "16:00", items, total⟩ + 10)
      ∧ calculatePoints rt ⟨id, retailer, date, "15:59", items, total⟩
          = wrap64 (calculatePoints rt ⟨id, retailer, date, "13:59", items, total⟩ + 10)
      ∧ (calculatePoints rt ⟨id, retailer, date, "13:59", items, total⟩ ≤ 9223372036854775797 →
          calculatePoints rt ⟨id, retailer, date, "15:59", items, total⟩
            = calculatePoints rt ⟨id, retailer, date, "13:59", items, total⟩ + 10) := by
  have h7 : rule7Points (clockText h m) = (if 14 ≤ h ∧ h < 16 then 10 else 0) := by
    simp only [rule7Points, parseClock_clockText h m hh hm, timeOrZero, Option.getD_some,
      Time.Hour]
    by_cases c : 14 ≤ h ∧ h < 16
    · rw [if_pos c, if_pos]
      omega
    · rw [if_neg c, if_neg]
      omega
  have e1 : rule7Points "14:00" = 10 := by decide
  have e2 : rule7Points "16:00" = 0 := by decide
  have e3 : rule7Points "15:59" = 10 := by decide
  have e4 : rule7Points "13:59" = 0 := by decide
  have w1 : calculatePoints rt ⟨id, retailer, date, "14:00", items, total⟩
      = wrap64 (calculatePoints rt ⟨id, retailer, date, "16:00", items, total⟩ + 10) := by
    simp only [calculatePoints_eq_rules, e1, e2, wrap64_add_left, add_zero]
  have w2 : calculatePoints rt ⟨id, retailer, date, "15:59", items, total⟩
      = wrap64 (calculatePoints rt ⟨id, retailer, date, "13:59", items, total⟩ + 10) := by
    simp only [calculatePoints_eq_rules, e3, e4, wrap64_add_left, add_zero]
  refine ⟨h7, ?_, w1, ?_, w2, ?_⟩
  · rw [calculatePoints_eq_rules, h7]
  · intro hle
    rw [w1]
    exact wrap64_of_range _ ⟨by have := (calculatePoints_range rt
      ⟨id, retailer, date, "16:00", items, total⟩).1; omega, by omega⟩
  · intro hle
    rw [w2]
    exact wrap64_of_range _ ⟨by have := (calculatePoints_range rt
      ⟨id, retailer, date, "13:59", items, total⟩).1; omega, by omega⟩

set_option maxRecDepth 100000 in
/-- C7, witness: the amended statement for the worked example at the purchase time
`15:30`, where the points with `16:00` and with `13:59` are 17. -/
theorem rule7_half_open_interval_witness :
    (15 < 24 ∧ 30 < 60
        ∧ calculatePoints amd64Latin1
            ⟨"id", "Target", "2022-01-01", "16:00", exampleReceipt.Items, "35.35"⟩
          ≤ 9223372036854775797)
      ∧ rule7Points (clockText 15 30) = (if 14 ≤ 15 ∧ 15 < 16 then 10 else 0)
      ∧ calculatePoints amd64Latin1
            ⟨"id", "Target", "2022-01-01", "14:00", exampleReceipt.Items, "35.35"⟩
          = calculatePoints amd64Latin1
              ⟨"id", "Target", "2022-01-01", "16:00", exampleReceipt.Items, "35.35"⟩ + 10 :=
  ⟨by decide,
    (rule7_half_open_interval amd64Latin1 "id" "Target" "2022-01-01" "35.35"
      exampleReceipt.Items 15 30 (by decide) (by decide)).1,
    (rule7_half_open_interval amd64Latin1 "id" "Target" "2022-01-01" "35.35"
      exampleReceipt.Items 15 30 (by decide) (by decide)).2.2.2.1 (by decide)⟩

/-! ## C8: fields that fail to parse -/

theorem rangeChecked_error (f : F64) : (rangeChecked f).2 ≠ some NumError.ErrSyntax := by
  cases f <;> simp [rangeChecked]

theorem rangeChecked_range (f : F64) (h : (rangeChecked f).2 = some NumError.ErrRange) :
    ∃ neg, (rangeChecked f).1 = F64.inf neg := by
  cases f with
  | fin neg x => simp [rangeChecked] at h
  | inf neg => exact ⟨neg, rfl⟩
  | nan => simp [rangeChecked] at h

/-- A text that is not a number is read as 0. -/
theorem parseFloat_syntax_error (s : String) (h : (ParseFloat s).2 = some NumError.ErrSyntax) :
    (ParseFloat s).1 = F64.fin false 0 := by
  unfold ParseFloat at h ⊢
  cases h1 : special s.data with
  | some f => simp [h1] at h
  | none =>
    cases h2 : readFloat s.data with
    | none => rfl
    | some r =>
      obtain ⟨neg, mant, e, hex⟩ := r
      simp only [h1, h2] at h
      exact absurd h (rangeChecked_error _)

/-- A number that is out of range is read as an infinity. -/
theorem parseFloat_range_error (s : String) (h : (ParseFloat s).2 = some NumError.ErrRange) :
    ∃ neg, (ParseFloat s).1 = F64.inf neg := by
  unfold ParseFloat at h ⊢
  cases h1 : special s.data with
  | some f => simp [h1] at h
  | none =>
    cases h2 : readFloat s.data with
    | none => simp [h1, h2] at h
    | some r =>
      obtain ⟨neg, mant, e, hex⟩ := r
      simp only [h1, h2] at h ⊢
      exact rangeChecked_range _ h

theorem infText_value (neg : Bool) :
    (ParseFloat (if neg then "-Inf" else "Inf")).1 = F64.inf neg := by
  cases neg <;> decide

theorem rule2Points_congr (rt : Runtime) (s t : String) (h : (ParseFloat s).1 = (ParseFloat t).1) :
    rule2Points rt s = rule2Points rt t := by
  simp only [rule2Points, h]

theorem rule3Points_congr (rt : Runtime) (s t : String) (h : (ParseFloat s).1 = (ParseFloat t).1) :
    rule3Points rt s = rule3Points rt t := by
  simp only [rule3Points, h]

theorem itemPoints_congr (rt : Runtime) (desc s t : String)
    (h : (ParseFloat s).1 = (ParseFloat t).1) :
    itemPoints rt ⟨desc, s⟩ = itemPoints rt ⟨desc, t⟩ := by
  simp only [itemPoints, addItemPoints, h]

theorem rule5Points_replace (rt : Runtime) (pre post : List Item) (a b : Item)
    (h : itemPoints rt a = itemPoints rt b) :
    rule5Points rt (pre ++ a :: post) = rule5Points rt (pre ++ b :: post) := by
  simp only [rule5Points, List.map_append, List.map_cons, h]

theorem toInt_inf (rt : Runtime) (neg : Bool) :
    F64.toInt rt (F64.inf neg) = wrap64 (rt.convOutOfRange (F64.inf neg)) := rfl

/-- For an infinite total rule 2 adds 0, and rule 3 adds 25 when the conversion of the
infinity to `int`, which is left to the implementation, gives a multiple of 25. -/
theorem rule23_inf (rt : Runtime) (total : String) (neg : Bool)
    (h : (ParseFloat total).1 = F64.inf neg) :
    rule2Points rt total = 0
      ∧ rule3Points rt total
          = if Int.tmod (wrap64 (rt.convOutOfRange (F64.inf neg))) 25 = 0 then 25 else 0 := by
  constructor
  · obtain ⟨m, hm⟩ := ofInt_finite (F64.toInt rt (F64.inf neg)) (toInt_range rt _)
    simp only [rule2Points, h, hm, F64.eq]
    rfl
  · have hne : ¬ 100 * 2 ^ (fracExp + 54) = 0 :=
      Nat.mul_ne_zero (by norm_num) (Nat.pos_iff_ne_zero.1 (Nat.two_pow_pos _))
    have hb : (neg != false) = neg := by cases neg <;> rfl
    simp only [rule3Points, h, ofConst_hundred, units_eq, F64.mul, hne, if_false, hb, toInt_inf]

/-- For an infinite price rule 5 adds the conversion of the infinity to `int`, which is
left to the implementation. -/
theorem itemPoints_inf (rt : Runtime) (item : Item) (neg : Bool)
    (h : (ParseFloat item.Price).1 = F64.inf neg) :
    itemPoints rt item
      = if len (TrimSpace item.ShortDescription.data) % 3 = 0
        then wrap64 (rt.convOutOfRange (F64.inf neg)) else 0 := by
  have hne : ¬ 3602879701896397 * 2 ^ fracExp = 0 :=
    Nat.mul_ne_zero (by norm_num) (Nat.pos_iff_ne_zero.1 (Nat.two_pow_pos _))
  have hb : (neg != false) = neg := by cases neg <;> rfl
  have hv : ∀ fused, mulAdd fused (F64.inf neg) (F64.ofConst 2 10) (F64.ofConst 5 10)
      = F64.inf neg := by
    intro fused
    rw [ofConst_two_tenths, ofConst_half]
    cases fused
    · simp only [mulAdd, Bool.false_eq_true, if_false, F64.mul, hne, hb, F64.add]
    · simp only [mulAdd, if_true, F64.fma, hne, if_false, hb, infPlus]
  rw [itemPoints_eq, h, hv, toInt_inf]

set_option exponentiation.threshold 4096 in
/-- A value of 2^1024 or more rounds to an infinity. -/
theorem mkFloat_overflow (neg : Bool) (n d : Nat) (hd : 0 < d)
    (h : 2 ^ 1024 * 2 ^ (fracExp + 54) * d ≤ n) : mkFloat neg n d = F64.inf neg := by
  have e : 1 * 2 ^ (1024 + (fracExp + 54)) = 2 ^ 1024 * 2 ^ (fracExp + 54) := by
    rw [one_mul, pow_add]
  have h1 : 1 * 2 ^ (1024 + (fracExp + 54)) ≤ roundUnits n d :=
    le_roundUnits n d 1 (1024 + (fracExp + 54)) hd (by norm_num) (by rw [e]; exact h)
  have h2 : maxFinite < 1 * 2 ^ (1024 + (fracExp + 54)) := by
    have h3 : maxFinite = 9007199254740991 * 2 ^ 2045 := by
      unfold maxFinite
      rw [Nat.shiftLeft_eq]
    have h4 : 1024 + (fracExp + 54) = 53 + 2045 := by
      rw [fracExp]
    rw [h3, h4, one_mul, pow_add]
    exact Nat.mul_lt_mul_of_pos_right (by norm_num) (Nat.two_pow_pos _)
  simp only [mkFloat, lt_of_lt_of_le h2 h1, if_true]

set_option maxRecDepth 100000 in
set_option exponentiation.threshold 4096 in
/-- The price of 310 digits is out of range. -/
theorem parseFloat_hugePrice : ParseFloat hugePrice = (F64.inf false, some NumError.ErrRange) := by
  have hp := parseFloat_price ('1' :: List.replicate 309 '0') '.' '0' '0' (by simp)
    (by
      intro c hc
      rcases List.mem_cons.1 hc with rfl | hc
      · decide
      · rw [List.eq_of_mem_replicate hc]
        decide)
    (by decide) (by decide) (by decide)
  have hv : 2 ^ 1024 * 100 ≤ decimalValue ('1' :: List.replicate 309 '0' ++ ['0', '0']) := by
    decide
  have hs : hugePrice = String.mk ('1' :: List.replicate 309 '0' ++ ['.', '0', '0']) := rfl
  rw [hs, hp, mkFloat_overflow false _ 100 (by norm_num)]
  · rfl
  · rw [units_eq]
    calc 2 ^ 1024 * 2 ^ (fracExp + 54) * 100
        = 2 ^ 1024 * 100 * 2 ^ (fracExp + 54) := by ring
      _ ≤ _ := Nat.mul_le_mul_right _ hv

theorem itemPoints_hugePrice (rt : Runtime) :
    itemPoints rt ⟨"Dasani", hugePrice⟩ = wrap64 (rt.convOutOfRange (F64.inf false)) := by
  rw [itemPoints_inf rt ⟨"Dasani", hugePrice⟩ false (congrArg Prod.fst parseFloat_hugePrice)]
  exact if_pos (by decide)

set_option maxRecDepth 100000 in
/-- C8, counterexample: the purchase date `2022-13-45` does not parse and rule 6 adds 6
for it; the total `abc` does not parse and rules 2 and 3 add 50 and 25 for it, so that
the worked example with these two fields gets 6 + 50 + 25 + 5 + 0 + 6 + 0 = 92 points;
the price of 310 digits does not parse (`ErrRange`) and rule 5 adds the least `int` for
it on amd64; as a total it gets 0 from rule 2 and 0 from rule 3 there. -/
theorem unparsed_fields_score :
    parseDate "2022-13-45" = none ∧ rule6Points "2022-13-45" = 6
      ∧ ParseFloat "abc" = (F64.fin false 0, some NumError.ErrSyntax)
      ∧ rule2Points amd64Latin1 "abc" = 50 ∧ rule3Points amd64Latin1 "abc" = 25
      ∧ calculatePoints amd64Latin1
          ⟨"id", "Target", "2022-13-45", "13:01", exampleReceipt.Items, "abc"⟩ = 92
      ∧ priceRegex hugePrice = true
      ∧ ParseFloat hugePrice = (F64.inf false, some NumError.ErrRange)
      ∧ itemPoints amd64Latin1 ⟨"Dasani", hugePrice⟩ = -9223372036854775808
      ∧ rule2Points amd64Latin1 hugePrice = 0 ∧ rule3Points amd64Latin1 hugePrice = 0 := by
  obtain ⟨r2, r3⟩ :=
    rule23_inf amd64Latin1 hugePrice false (congrArg Prod.fst parseFloat_hugePrice)
  refine ⟨by decide, by decide, by decide, by decide, by decide, by decide, by decide,
    parseFloat_hugePrice, ?_, r2, ?_⟩
  · rw [itemPoints_hugePrice]
    decide
  · rw [r3]
    decide

set_option maxRecDepth 100000 in
/-- C8, amended: `calculatePoints` discards every parse error and uses the value returned
with it, for every document.  A purchaseDate that does not parse as YYYY-MM-DD is read as
the zero time, January 1 of year 1: rule 6 adds 6, and the points are those of the
document with the date `0001-01-01`.  A purchaseTime that does not parse as HH:MM is read
as the zero time, whose hour is 0: rule 7 adds 0, and the points are those of the
document with the time `00:00`.  A total that does not parse as a number is read as 0
when it is not a number (`ErrSyntax`): rules 2 and 3 add 50 and 25, and the points are
those of the document with the total `0`; and as an infinity when it is a number out of
range (`ErrRange`): rule 2 adds 0, rule 3 adds 25 when the conversion of the infinity to
`int`, which is left to the implementation, is a multiple of 25, and the points are those
of the document with the total `Inf` or `-Inf`.  An item price that does not parse as a
number is read in the same two ways: rule 5 adds 0 for the item when the price is not a
number, as for the price `0`, and the conversion of the infinity to `int` when it is out
of range and the trimmed description has a multiple of 3 bytes, as for the price `Inf` or
`-Inf`. -/
theorem unparsed_fields_read_as_returned (rt : Runtime) (id retailer date time total : String)
    (items pre post : List Item) (item : Item) :
    (parseDate date = none →
        rule6Points date = 6
          ∧ calculatePoints rt ⟨id, retailer, date, time, items, total⟩
              = calculatePoints rt ⟨id, retailer, "0001-01-01", time, items, total⟩)
      ∧ (parseClock time = none →
        rule7Points time = 0
          ∧ calculatePoints rt ⟨id, retailer, date, time, items, total⟩
              = calculatePoints rt ⟨id, retailer, date, "00:00", items, total⟩)
      ∧ ((ParseFloat total).2 = some NumError.ErrSyntax →
        rule2Points rt total = 50 ∧ rule3Points rt total = 25
          ∧ calculatePoints rt ⟨id, retailer, date, time, items, total⟩
              = calculatePoints rt ⟨id, retailer, date, time, items, "0"⟩)
      ∧ ((ParseFloat total).2 = some NumError.ErrRange →
        ∃ neg, (ParseFloat total).1 = F64.inf neg
          ∧ rule2Points rt total = 0
          ∧ rule3Points rt total
              = (if Int.tmod (wrap64 (rt.convOutOfRange (F64.inf neg))) 25 = 0 then 25 else 0)
          ∧ calculatePoints rt ⟨id, retailer, date, time, items, total⟩
              = calculatePoints rt
                  ⟨id, retailer, date, time, items, if neg then "-Inf" else "Inf"⟩)
      ∧ ((ParseFloat item.Price).2 = some NumError.ErrSyntax →
        itemPoints rt item = 0
          ∧ calculatePoints rt ⟨id, retailer, date, time, pre ++ item :: post, total⟩
              = calculatePoints rt
                  ⟨id, retailer, date, time, pre ++ ⟨item.ShortDescription, "0"⟩ :: post, total⟩)
      ∧ ((ParseFloat item.Price).2 = some NumError.ErrRange →
        ∃ neg, (ParseFloat item.Price).1 = F64.inf neg
          ∧ itemPoints rt item
              = (if len (TrimSpace item.ShortDescription.data) % 3 = 0
                then wrap64 (rt.convOutOfRange (F64.inf neg)) else 0)
          ∧ calculatePoints rt ⟨id, retailer, date, time, pre ++ item :: post, total⟩
              = calculatePoints rt
                  ⟨id, retailer, date, time,
                    pre ++ ⟨item.ShortDescription, if neg then "-Inf" else "Inf"⟩ :: post,
                    total⟩) := by
  have z0 : (ParseFloat "0").1 = F64.fin false 0 := by decide
  refine ⟨fun h => ?_, fun h => ?_, fun h => ?_, fun h => ?_, fun h => ?_, fun h => ?_⟩
  · have e : rule6Points date = rule6Points "0001-01-01" := by
      simp only [rule6Points, h]
      decide
    refine ⟨?_, ?_⟩
    · rw [e]
      decide
    · simp only [calculatePoints_eq_rules, e]
  · have e : rule7Points time = rule7Points "00:00" := by
      simp only [rule7Points, h]
      decide
    refine ⟨?_, ?_⟩
    · rw [e]
      decide
    · simp only [calculatePoints_eq_rules, e]
  · have hz := parseFloat_syntax_error total h
    have hc : (ParseFloat total).1 = (ParseFloat "0").1 := by rw [hz, z0]
    refine ⟨?_, ?_, ?_⟩
    · rw [rule2Points_of rt total 0 true (by rw [hz]; decide) (by rw [hz]; decide)]
      rfl
    · rw [rule3Points_of rt total 0 (by rw [hz]; decide)]
      decide
    · simp only [calculatePoints_eq_rules, rule2Points_congr rt _ _ hc,
        rule3Points_congr rt _ _ hc]
  · obtain ⟨neg, hv⟩ := parseFloat_range_error total h
    have hc : (ParseFloat total).1 = (ParseFloat (if neg then "-Inf" else "Inf")).1 := by
      rw [hv, infText_value]
    obtain ⟨r2, r3⟩ := rule23_inf rt total neg hv
    refine ⟨neg, hv, r2, r3, ?_⟩
    simp only [calculatePoints_eq_rules, rule2Points_congr rt _ _ hc,
      rule3Points_congr rt _ _ hc]
  · have hz := parseFloat_syntax_error item.Price h
    have hc : (ParseFloat item.Price).1 = (ParseFloat "0").1 := by rw [hz, z0]
    have hi : itemPoints rt item = itemPoints rt ⟨item.ShortDescription, "0"⟩ :=
      itemPoints_congr rt item.ShortDescription item.Price "0" hc
    refine ⟨?_, ?_⟩
    · rw [itemPoints_of rt item 0 (by rw [hz]; decide)]
      simp
    · simp only [calculatePoints_eq_rules, rule4Points, List.length_append, List.length_cons,
        rule5Points_replace rt pre post _ _ hi]
  · obtain ⟨neg, hv⟩ := parseFloat_range_error item.Price h
    have hc : (ParseFloat item.Price).1
        = (ParseFloat (if neg then "-Inf" else "Inf")).1 := by
      rw [hv, infText_value]
    have hi : itemPoints rt item
        = itemPoints rt ⟨item.ShortDescription, if neg then "-Inf" else "Inf"⟩ :=
      itemPoints_congr rt item.ShortDescription item.Price _ hc
    refine ⟨neg, hv, itemPoints_inf rt item neg hv, ?_⟩
    simp only [calculatePoints_eq_rules, rule4Points, List.length_append, List.length_cons,
      rule5Points_replace rt pre post _ _ hi]

set_option maxRecDepth 100000 in
/-- C8, witness: each of the six failures occurs, at the texts `2022-13-45`, `1pm`, `abc`,
the total of 310 digits, `free` and the price of 310 digits, and the amounts of the
amended statement for the failures that are not left to the implementation are 6, 0,
50 and 25, 0, and 0. -/
theorem unparsed_fields_read_as_returned_witness :
    (parseDate "2022-13-45" = none ∧ parseClock "1pm" = none
        ∧ (ParseFloat "abc").2 = some NumError.ErrSyntax
        ∧ (ParseFloat hugePrice).2 = some NumError.ErrRange
        ∧ (ParseFloat (Item.mk "Dasani" "free").Price).2 = some NumError.ErrSyntax
        ∧ (ParseFloat (Item.mk "Dasani" hugePrice).Price).2 = some NumError.ErrRange)
      ∧ rule6Points "2022-13-45" = 6 ∧ rule7Points "1pm" = 0
      ∧ (rule2Points amd64Latin1 "abc" = 50 ∧ rule3Points amd64Latin1 "abc" = 25)
      ∧ itemPoints amd64Latin1 (Item.mk "Dasani" "free") = 0 :=
  ⟨⟨by decide, by decide, by decide, congrArg Prod.snd parseFloat_hugePrice, by decide,
      congrArg Prod.snd parseFloat_hugePrice⟩,
    ((unparsed_fields_read_as_returned amd64Latin1 "id" "Target" "2022-13-45" "1pm" "abc"
      [] [] [] ⟨"Dasani", "free"⟩).1 (by decide)).1,
    ((unparsed_fields_read_as_returned amd64Latin1 "id" "Target" "2022-13-45" "1pm" "abc"
      [] [] [] ⟨"Dasani", "free"⟩).2.1 (by decide)).1,
    ⟨((unparsed_fields_read_as_returned amd64Latin1 "id" "Target" "2022-13-45" "1pm" "abc"
      [] [] [] ⟨"Dasani", "free"⟩).2.2.1 (by decide)).1,
     ((unparsed_fields_read_as_returned amd64Latin1 "id" "Target" "2022-13-45" "1pm" "abc"
      [] [] [] ⟨"Dasani", "free"⟩).2.2.1 (by decide)).2.1⟩,
    ((unparsed_fields_read_as_returned amd64Latin1 "id" "Target" "2022-13-45" "1pm" "abc"
      [] [] [] ⟨"Dasani", "free"⟩).2.2.2.2.1 (by decide)).1⟩

/-! ## C9: the order of the items -/

/-- C9: two documents that agree on retailer, purchaseDate, purchaseTime and total and
whose items lists are permutations of each other get the same points. -/
theorem calculatePoints_perm (rt : Runtime) (id₁ id₂ retailer date time total : String)
    (items₁ items₂ : List Item) (h : items₁.Perm items₂) :
    calculatePoints rt ⟨id₁, retailer, date, time, items₁, total⟩
      = calculatePoints rt ⟨id₂, retailer, date, time, items₂, total⟩ := by
  simp only [calculatePoints_eq_rules, rule4Points, rule5Points, h.length_eq,
    (h.map (itemPoints rt)).sum_eq]

/-- C9, witness: the two items of the worked example in both orders. -/
theorem calculatePoints_perm_witness :
    calculatePoints amd64Latin1
        ⟨"a", "Target", "2022-01-01", "13:01",
          [⟨"Pepsi - 12oz", "1.25"⟩, ⟨"Dasani", "1.40"⟩], "35.35"⟩
      = calculatePoints amd64Latin1
        ⟨"b", "Target", "2022-01-01", "13:01",
          [⟨"Dasani", "1.40"⟩, ⟨"Pepsi - 12oz", "1.25"⟩], "35.35"⟩ :=
  calculatePoints_perm amd64Latin1 "a" "b" "Target" "2022-01-01" "13:01" "35.35" _ _
    (List.Perm.swap _ _ [])

/-! ## C10: the worked example -/

set_option maxRecDepth 100000 in
/-- C10: for the worked example `validateReceipt` returns true and `calculatePoints`
returns 17, which is 6 (rule 1) + 0 (rule 2) + 0 (rule 3) + 5 (rule 4) + 0 + 0 (rule 5,
both items, whose trimmed descriptions have 12 and 6 bytes) + 6 (rule 6) + 0 (rule 7). -/
theorem worked_example (rt : Runtime) (id : String) :
    validateReceipt exampleReceipt = true
      ∧ calculatePoints rt (toDocument id exampleReceipt) = 17
      ∧ rule1Points rt "Target" = 6
      ∧ rule2Points rt "35.35" = 0
      ∧ rule3Points rt "35.35" = 0
      ∧ rule4Points exampleReceipt.Items = 5
      ∧ len (TrimSpace "Pepsi - 12oz".data) = 12 ∧ itemPoints rt ⟨"Pepsi - 12oz", "1.25"⟩ = 0
      ∧ len (TrimSpace "Dasani".data) = 6 ∧ itemPoints rt ⟨"Dasani", "1.40"⟩ = 0
      ∧ rule6Points "2022-01-01" = 6
      ∧ rule7Points "13:01" = 0 := by
  obtain ⟨h1, h4, h5a, h5b, _, h6⟩ := example_amounts rt
  have h2 : rule2Points rt "35.35" = 0 :=
    rule2Points_of rt "35.35" 35 false (by decide) (by decide)
  have h3 : rule3Points rt "35.35" = 0 := by
    rw [rule3Points_of rt "35.35" 3535 (by decide)]
    decide
  have h7 : rule7Points "13:01" = 0 := by decide
  refine ⟨by decide, ?_, h1, h2, h3, h4, by decide, h5a, by decide, h5b, h6, h7⟩
  exact example_points rt id "13:01" "35.35" 0 0 0 h2 h3 h7 (by decide)

end ReceiptProcessor
